import Mathlib

/-!
# PCMI (PowerCommandInterpreter): a shallow embedding of `src/PCMI.cpp`

`std::string` is modelled as `List Char` (abbreviated `Str`).  The process is
modelled by explicit state passing over `World`; the behaviours of the
operating system that the program cannot decide itself (whether a directory
change succeeds, what a child process prints, whether Ctrl+C arrives) are the
fields of `Env`.

Modelling choices:
* a file is the text a text-mode stream reads from it or writes to it, and
  files are found by absolute path: a file name is resolved against the
  current directory by `Env.fullPath`;
* an input stream reads its file on demand: what a child writes to the file
  during the run is read by the later `std::getline` calls, until the stream
  has met the end of the file;
* a call that takes `s.c_str()` receives the characters of `s` before its first
  NUL (`cstr`);
* the signal handler runs only while the interpreter waits for a child: during
  the `system` call of a script line (`Env.ctrlC`) or between two reads of a
  pipe (`PipeItem.ctrlC`); a Ctrl+C at the prompt is the value of
  `World.stopCommand` with which a command starts;
* a child process terminates, and appending to the log buffer never throws.

Layout: the program, then the wording of the specification that the program
is compared with, then concrete surroundings for evaluation, then lemmas, then
one theorem for each claim `C1` to `C10`.
-/

namespace PCMI

/-- A `std::string`: a finite sequence of characters. -/
abbrev Str := List Char

/-! ## The `std::string` operations used by the program -/

/-- The width of `size_t` on the target (64-bit Windows). -/
def SIZE_T_BITS : Nat := 64

/-- Subtraction of two `size_t` values, wrapping around modulo `2^64`. -/
def sizeSub (a b : Nat) : Nat := (a + 2 ^ SIZE_T_BITS - b % 2 ^ SIZE_T_BITS) % 2 ^ SIZE_T_BITS

/-- The call `s.substr(pos, n)` for `pos <= s.size()`: at most `n` characters from `pos`. -/
def substr (s : Str) (pos n : Nat) : Str := (s.drop pos).take n

/-- The call `s.substr(pos)` for `pos <= s.size()`: everything from `pos`. -/
def substrFrom (s : Str) (pos : Nat) : Str := s.drop pos

/-- The call `s.find(c)` for a character: position of the first occurrence, `none` for `npos`. -/
def findChar : Str → Char → Option Nat
  | [], _ => none
  | x :: xs, c => if x = c then some 0 else (findChar xs c).map (· + 1)

/-- The call `s.find(needle)` for a string: position of the first occurrence, `none` for `npos`. -/
def findStr : Str → Str → Option Nat
  | [], needle => if needle = [] then some 0 else none
  | x :: xs, needle =>
    if needle.isPrefixOf (x :: xs) then some 0 else (findStr xs needle).map (· + 1)

/-- The call `s.find_last_of(c)` for a one-character set: position of the last occurrence. -/
def findLastOf : Str → Char → Option Nat
  | [], _ => none
  | x :: xs, c =>
    match findLastOf xs c with
    | some i => some (i + 1)
    | none => if x = c then some 0 else none

/-- The call `s.replace(pos, 1, r)`: the character at `pos` is replaced by the string `r`. -/
def replaceAt (s : Str) (pos : Nat) (r : Str) : Str := s.take pos ++ r ++ s.drop (pos + 1)

/-- The C string `s.c_str()` as the callee reads it: the characters before the
first NUL. -/
def cstr (s : Str) : Str := s.takeWhile (· ≠ Char.ofNat 0)

/-- The lines that successive `std::getline(file, line)` calls deliver for a
text stream with the given content: the content is cut at every newline, and
no line is delivered for the empty remainder after a final newline. -/
def getlines : Str → List Str
  | [] => []
  | c :: cs =>
    if c = '\n' then [] :: getlines cs
    else
      match getlines cs with
      | [] => [[c]]
      | l :: ls => (c :: l) :: ls

/-- The string left in `line` by the first `std::getline(file, line)` on a
stream with the given content: the text before the first newline (empty when
the stream is empty and the call fails). -/
def firstLine (content : Str) : Str := content.takeWhile (· ≠ '\n')

/-- One call `std::getline(file, line)` on a stream whose unread text is
`stream`: `none` when the call fails (nothing is left), else the line
delivered and the text left unread after its newline. -/
def getline (stream : Str) : Option (Str × Str) :=
  if stream = [] then none
  else some (stream.takeWhile (· ≠ '\n'), (stream.dropWhile (· ≠ '\n')).drop 1)

/-! ## Events, process state and environment -/

/-- The calls the process makes to the console and the operating system, in
the order it makes them. -/
inductive Event
  /-- The call `SetConsoleColor(color)` -/
  | setColor (color : Nat)
  /-- The output `std::cout << text` (a trailing `std::endl` is the final newline of `text`) -/
  | cout (text : Str)
  /-- The call `system(cmd.c_str())` -/
  | system (cmd : Str)
  /-- The call `_popen(cmd.c_str(), "r")` -/
  | popen (cmd : Str)
  /-- The call `_pclose(pipe)` -/
  | pclose
  /-- The call `_chdir(path.c_str())` -/
  | chdir (path : Str)
  /-- The call `RegCreateKeyExA` on a key that succeeded, followed by `RegSetValueExA` of its default value -/
  | regSetValue (key value : Str)
  /-- The call `SHChangeNotify(SHCNE_ASSOCCHANGED, ...)` -/
  | shChangeNotify
  deriving DecidableEq, Repr

/-- What the interpreter meets while it reads the pipe of a child process. -/
inductive PipeItem
  /-- one successful `fgets(buffer, 128, pipe)` -/
  | chunk (text : Str)
  /-- Ctrl+C is delivered (the handler runs) while the interpreter waits on the pipe -/
  | ctrlC
  deriving DecidableEq, Repr

/-- The state of the process and of the files it can see.  `fs` maps an
absolute path to the text of the regular file there; `trace` is the sequence
of console and system calls made so far; `exited` is the status passed to
`exit`, once the process has called it. -/
structure World where
  stopCommand : Bool
  logBuffer : List Str
  cwd : Str
  fs : Str → Option Str
  trace : List Event
  exited : Option Nat

/-- The behaviour of the surroundings of the process.
* `fullPath cwd name`: the absolute path that the file name `name` denotes for
  a process whose current directory is `cwd`;
* `canWrite p`: whether an output stream on the absolute path `p` opens;
* `chdir cwd path`: `none` when `_chdir(path)` fails, else the new current
  directory as `GetCurrentDirectoryA` reports it;
* `popen cmd`: `none` when `_popen` fails, else what the reading loop meets
  until the child closes the pipe (the child is taken to terminate);
* `shell cmd fs`: the files after a child shell has run `cmd`;
* `ctrlC k`: whether Ctrl+C arrives while the script line at position `k`
  (counted from 0) is being run by `system`;
* `now`: the text `GetCurrentDateTime` returns;
* `exePath`: the text `GetExecutablePath` returns;
* `regCreateKey key`: whether `RegCreateKeyExA` succeeds on `key`. -/
structure Env where
  fullPath : Str → Str → Str
  canWrite : Str → Bool
  chdir : Str → Str → Option Str
  popen : Str → Option (List PipeItem)
  shell : Str → (Str → Option Str) → (Str → Option Str)
  ctrlC : Nat → Bool
  now : Str
  exePath : Str
  regCreateKey : Str → Bool

def LOG_FILE : Str := "PCMI.log".toList
def SHUTDOWN_FLAG_FILE : Str := "Properly_shut_down.pcmi".toList
def CONTEXT_FILE : Str := "Context.pcmi".toList
def PCML_EXTENSION : Str := ".pcml".toList
def PCML_REGISTRY_KEY : Str := "PCMI.pcml".toList
def REGISTERED_FLAG : Str := "Registered.pcmi".toList

/-- The process appends calls to its trace. -/
def emit (es : List Event) (s : World) : World := { s with trace := s.trace ++ es }

/-- The call `SetConsoleColor(color)` -/
def SetConsoleColor (color : Nat) (s : World) : World := emit [Event.setColor color] s

/-- The output `std::cout << text << std::endl` -/
def coutLine (text : Str) (s : World) : World := emit [Event.cout (text ++ ['\n'])] s

/-- The macro `FILE_EXISTS(name)`: a regular file is there. -/
def FILE_EXISTS (env : Env) (name : Str) (s : World) : Bool :=
  (s.fs (env.fullPath s.cwd name)).isSome

/-- The files after the text of the file at `p` has been set to `text`. -/
def fsWrite (fs : Str → Option Str) (p text : Str) : Str → Option Str :=
  fun q => if q = p then some text else fs q

/-- The statements `std::ofstream f(name); if (f.is_open()) f << text;` together with the
value of `f.is_open()`. -/
def writeFile (env : Env) (name text : Str) (s : World) : World × Bool :=
  let p := env.fullPath s.cwd name
  if env.canWrite p then ({ s with fs := fsWrite s.fs p text }, true) else (s, false)

/-- The function `PrintStatus(message, success)` -/
def PrintStatus (message : Str) (success : Bool) (s : World) : World :=
  s |> SetConsoleColor (if success then 10 else 12)
    |> coutLine ("[".toList ++ (if success then "OK".toList else "FAIL".toList)
          ++ "] ".toList ++ message)
    |> SetConsoleColor 10

/-- The function `Logger::Log(message)`; the append is taken to succeed (no `std::bad_alloc`). -/
def Log (message : Str) (s : World) : World :=
  { s with logBuffer := s.logBuffer ++ [message] }

/-- The function `Logger::FlushLogs()` -/
def FlushLogs (env : Env) (s : World) : World :=
  let p := env.fullPath s.cwd LOG_FILE
  if env.canWrite p then
    { s with
      fs := fsWrite s.fs p
        ((s.fs p).getD [] ++ (s.logBuffer.map (fun msg => msg ++ ['\n'])).flatten)
      logBuffer := [] }
  else s

/-- The function `Logger::Shutdown()` -/
def Shutdown (env : Env) (s : World) : World :=
  let s := coutLine "正在关闭 PCMI...".toList s
  let s := FlushLogs env s
  let shutdownFile := writeFile env SHUTDOWN_FLAG_FILE "True".toList s
  let s := PrintStatus ("更改 ".toList ++ SHUTDOWN_FLAG_FILE ++ " 为 True".toList)
    shutdownFile.2 shutdownFile.1
  coutLine "现在退出！".toList s

/-- The function `Logger::SaveContext(currentDir)` -/
def SaveContext (env : Env) (currentDir : Str) (s : World) : World :=
  (writeFile env CONTEXT_FILE currentDir s).1

/-- The function `Logger::LoadContext()` -/
def LoadContext (env : Env) (s : World) : Str :=
  if !FILE_EXISTS env CONTEXT_FILE s then []
  else
    match s.fs (env.fullPath s.cwd CONTEXT_FILE) with
    | some content => firstLine content
    | none => []

/-- The function `Logger::IsRegistered()` -/
def IsRegistered (env : Env) (s : World) : Bool := FILE_EXISTS env REGISTERED_FLAG s

/-- The function `Logger::MarkAsRegistered()` -/
def MarkAsRegistered (env : Env) (s : World) : World :=
  (writeFile env REGISTERED_FLAG "True".toList s).1

/-- The function `GetCurrentDirectoryPath()` -/
def GetCurrentDirectoryPath (s : World) : Str := s.cwd

/-- The call `system(cmd.c_str())`: it is recorded and the child may change files. -/
def callSystem (env : Env) (cmd : Str) (s : World) : World :=
  { s with trace := s.trace ++ [Event.system (cstr cmd)], fs := env.shell (cstr cmd) s.fs }

/-- The function `Logger::Initialize()` -/
def Initialize (env : Env) (s : World) : World :=
  let s := coutLine "正在启动 PCMI...".toList s
  let s := PrintStatus ("读取 ".toList ++ SHUTDOWN_FLAG_FILE) (FILE_EXISTS env SHUTDOWN_FLAG_FILE s) s
  let shutdownFile := writeFile env SHUTDOWN_FLAG_FILE "False".toList s
  let s := PrintStatus ("更改 ".toList ++ SHUTDOWN_FLAG_FILE ++ " 为 False".toList)
    shutdownFile.2 shutdownFile.1
  let savedDir := LoadContext env s
  let s :=
    if savedDir ≠ [] then
      match env.chdir s.cwd (cstr savedDir) with
      | some d =>
        PrintStatus ("恢复上下文到目录: ".toList ++ savedDir) true
          { emit [Event.chdir (cstr savedDir)] s with cwd := d }
      | none =>
        PrintStatus ("恢复上下文到目录: ".toList ++ savedDir) false
          (emit [Event.chdir (cstr savedDir)] s)
    else s
  let s := coutLine "现在进入！".toList s
  let s := callSystem env "cls".toList s
  Log ("PCMI 初始化于 ".toList ++ env.now) s

/-- The function `CtrlHandler(CTRL_C_EVENT)` -/
def CtrlHandler (s : World) : World :=
  Log "Command interrupted by Ctrl+C".toList { s with stopCommand := true }

/-- The function `RegisterFileAssociation()` with the value it returns. -/
def RegisterFileAssociation (env : Env) (s : World) : World × Bool :=
  if !env.regCreateKey PCML_REGISTRY_KEY then (s, false) else
  let s := emit [Event.regSetValue PCML_REGISTRY_KEY "PCMI Command Script".toList] s
  let iconKey := PCML_REGISTRY_KEY ++ "\\DefaultIcon".toList
  if !env.regCreateKey iconKey then (s, false) else
  let s := emit [Event.regSetValue iconKey (env.exePath ++ ",0".toList)] s
  let commandKey := PCML_REGISTRY_KEY ++ "\\shell\\open\\command".toList
  if !env.regCreateKey commandKey then (s, false) else
  let s := emit [Event.regSetValue commandKey
    ("\"".toList ++ env.exePath ++ "\" \"%1\"".toList)] s
  if !env.regCreateKey PCML_EXTENSION then (s, false) else
  let s := emit [Event.regSetValue PCML_EXTENSION PCML_REGISTRY_KEY] s
  let s := emit [Event.shChangeNotify] s
  (MarkAsRegistered env s, true)

/-! ## The script runner -/

/-- Lines 271-273 and 290-292: the echo of a script line, `<filePath>> <line>`
in colour 14. -/
def echoLine (filePath line : Str) (s : World) : World :=
  s |> SetConsoleColor 14
    |> coutLine (filePath ++ "> ".toList ++ line)
    |> SetConsoleColor 10

/-- The call `system(line.c_str())` for the script line at position `k`: the
handler runs when Ctrl+C arrives during the call. -/
def runScriptLine (env : Env) (k : Nat) (line : Str) (s : World) : World :=
  let s := callSystem env line s
  if env.ctrlC k then CtrlHandler s else s

/-- The text of the file at `p` that a stream which has read `offset`
characters has not read yet (nothing when the file is gone). -/
def unread (s : World) (p : Str) (offset : Nat) : Str := ((s.fs p).getD []).drop offset

/-- Lines 279-296: the `while (std::getline(file, line))` loop.  The stream is
on the file at the absolute path `p`; `stream` is the number of characters it
has read, or `none` once it has met the end of the file (it is then no longer
good and every further `std::getline` fails); `k` is the position of the next
line.  `fuel` bounds the number of `std::getline` calls: the result is `none`
when the loop has not ended within them. -/
def scriptLoop (env : Env) (filePath : Str) (echoOn : Bool) (p : Str) :
    Nat → Nat → Option Nat → World → Option World
  | _, _, none, s => some s
  | 0, _, some _, _ => none
  | fuel + 1, k, some offset, s =>
    if unread s p offset = [] then some s
    else
      let line := (unread s p offset).takeWhile (· ≠ '\n')
      let stream :=
        if '\n' ∈ unread s p offset then some (offset + line.length + 1) else none
      if s.stopCommand then some { s with stopCommand := false }
      else if line = [] ∨ line.head? = some '@' then
        scriptLoop env filePath echoOn p fuel (k + 1) stream s
      else
        scriptLoop env filePath echoOn p fuel (k + 1) stream
          (runScriptLine env k line (if echoOn then echoLine filePath line s else s))

/-- The function `ExecutePCMLFile(filePath)`; `fuel` bounds the number of
`std::getline` calls of its loop. -/
def ExecutePCMLFile (env : Env) (fuel : Nat) (filePath : Str) (s : World) : Option World :=
  match s.fs (env.fullPath s.cwd (cstr filePath)) with
  | none =>
    some (s |> SetConsoleColor 12
      |> coutLine ("错误: 无法打开文件 ".toList ++ filePath)
      |> SetConsoleColor 10)
  | some content =>
    let line := firstLine content
    let stream := if '\n' ∈ content then some (line.length + 1) else none
    if findStr line "@echo off".toList ≠ none then
      scriptLoop env filePath false (env.fullPath s.cwd (cstr filePath)) fuel 1 stream s
    else
      scriptLoop env filePath true (env.fullPath s.cwd (cstr filePath)) fuel 1 stream
        (if line ≠ [] then runScriptLine env 0 line (echoLine filePath line s) else s)

/-! ## The subprocess executor and directory changes -/

/-- Lines 307-310: `while ((pos = path.find('/')) != npos) path.replace(pos, 1, "\\")`,
run for at most `fuel` iterations. -/
def replaceSlashesLoop : Nat → Str → Str
  | 0, path => path
  | fuel + 1, path =>
    match findChar path '/' with
    | some pos => replaceSlashesLoop fuel (replaceAt path pos ['\\'])
    | none => path

/-- The loop of lines 307-310; every iteration removes one `/`, so as many
iterations as the path has characters are enough. -/
def replaceSlashes (path : Str) : Str := replaceSlashesLoop path.length path

/-- Lines 312-314: the removal of surrounding double quotes. -/
def stripQuotes (path : Str) : Str :=
  if path ≠ [] ∧ path.head? = some '"' ∧ path.getLast? = some '"' then
    substr path 1 (sizeSub path.length 2)
  else path

/-- Lines 316-331: the path handed to `_chdir`, or `none` where the function
returns without a call (`cd .`). -/
def cdTarget (cwd path : Str) : Option Str :=
  if path = "/".toList ∨ path = "\\".toList then some "\\".toList
  else if path = ".".toList then none
  else if path = "..".toList then
    match findLastOf cwd '\\' with
    | some lastSlash =>
      let parent := substr cwd 0 lastSlash
      some (if parent = [] then "\\".toList else parent)
    | none => some path
  else some path

/-- Lines 305-339: the branch of `ExecuteCommand` for a command `cd <arg>`. -/
def changeDirectory (env : Env) (arg : Str) (s : World) : World :=
  let path := stripQuotes (replaceSlashes arg)
  match cdTarget s.cwd path with
  | none => s
  | some path =>
    let s := emit [Event.chdir (cstr path)] s
    match env.chdir s.cwd (cstr path) with
    | some d => { s with cwd := d }
    | none =>
      let errorMsg := "错误: 无法切换到目录 \"".toList ++ path ++ "\"".toList
      s |> Log errorMsg
        |> SetConsoleColor 12
        |> coutLine errorMsg
        |> SetConsoleColor 10

/-- Lines 356-360 and the handler: what one item met on the pipe does. -/
def pipeStep (s : World) : PipeItem → World
  | PipeItem.chunk output => emit [Event.cout output] (Log output s)
  | PipeItem.ctrlC => CtrlHandler s

/-- Lines 342-362: the branch of `ExecuteCommand` that runs a child shell. -/
def runShell (env : Env) (command : Str) (s : World) : World :=
  let cmd := "cmd /c ".toList ++ command
  let s := Log ("Executing: ".toList ++ command) s
  let s := emit [Event.popen (cstr cmd)] s
  match env.popen (cstr cmd) with
  | none =>
    let errorMsg := "错误: 无法执行命令".toList
    s |> Log errorMsg
      |> SetConsoleColor 12
      |> coutLine errorMsg
      |> SetConsoleColor 10
  | some items =>
    emit [Event.pclose] (items.foldl pipeStep { s with fs := env.shell (cstr cmd) s.fs })

/-- The function `ExecuteCommand(command)` -/
def ExecuteCommand (env : Env) (command : Str) (s : World) : World :=
  let s := { s with stopCommand := false }
  if substr command 0 3 = "cd ".toList then changeDirectory env (substrFrom command 3) s
  else runShell env command s

/-! ## The dispatcher -/

/-- Lines 370-379: the body of the `help` branch. -/
def helpCommand (s : World) : World :=
  s |> SetConsoleColor 14
    |> emit [Event.cout "可用命令:\n".toList,
             Event.cout "help - 显示帮助信息\n".toList,
             Event.cout "pcmi - 显示PCMI信息\n".toList,
             Event.cout "exit - 退出PCMI\n".toList,
             Event.cout "netstat - 显示网络状态\n".toList,
             Event.cout "route - 显示路由表\n".toList,
             Event.cout "register - 注册.pcml文件关联\n".toList,
             Event.cout "其他命令和 CMD 相同\n".toList]
    |> SetConsoleColor 10

/-- Lines 382-383: the body of the `cls` branch. -/
def clsCommand (env : Env) (s : World) : World :=
  callSystem env "cls".toList (Log "Clearing screen".toList s)

/-- Lines 386-390: the body of the `pcmi` branch. -/
def pcmiCommand (s : World) : World :=
  let info := ("PCMI ，全称 PowerCommandInterpreter ，由童顺开发，使用C++编写，采用GPL-v3开源\n"
    ++ "www.tongshunham.top/PCMI/").toList
  s |> Log info |> SetConsoleColor 14 |> coutLine info |> SetConsoleColor 10

/-- Lines 393-394: the body of the `exit` branch, `Logger::Shutdown(); exit(0);`. -/
def exitCommand (env : Env) (s : World) : World :=
  { Shutdown env s with exited := some 0 }

/-- Lines 403-411: the body of the `register` branch. -/
def registerCommand (env : Env) (s : World) : World :=
  let registered := RegisterFileAssociation env s
  let s := registered.1
  if registered.2 then
    s |> SetConsoleColor 14 |> coutLine "成功注册.pcml文件关联".toList |> SetConsoleColor 10
  else
    s |> SetConsoleColor 12 |> coutLine "错误: 无法注册.pcml文件关联".toList |> SetConsoleColor 10

/-- Lines 417-421: the body of the branch for `cd` without an argument. -/
def showDirectory (s : World) : World :=
  let currentDir := GetCurrentDirectoryPath s
  s |> Log currentDir |> SetConsoleColor 14 |> coutLine currentDir |> SetConsoleColor 10

/-- The function `ParseCommand(command)`; `fuel` bounds the number of
`std::getline` calls of a script it runs, and the result is `none` when the
script has not ended within them. -/
def ParseCommand (env : Env) (fuel : Nat) (command : Str) (s : World) : Option World :=
  let s := Log ("Command: ".toList ++ (if command = [] then "[empty]".toList else command)) s
  if command = "help".toList then some (helpCommand s)
  else if command = "cls".toList then some (clsCommand env s)
  else if command = "pcmi".toList then some (pcmiCommand s)
  else if command = "exit".toList then some (exitCommand env s)
  else if command = "netstat".toList then some (ExecuteCommand env "netstat -ano".toList s)
  else if command = "route".toList then some (ExecuteCommand env "route print".toList s)
  else if command = "register".toList then some (registerCommand env s)
  else if substr command 0 3 = "cd ".toList then some (ExecuteCommand env command s)
  else if command = "cd".toList then some (showDirectory s)
  else if command.length > 5 ∧
      substrFrom command (command.length - 5) = ".pcml".toList then
    ExecutePCMLFile env fuel command s
  else some (ExecuteCommand env command s)

/-- The function `PrintPrompt()` -/
def PrintPrompt (env : Env) (s : World) : World :=
  let currentDir := GetCurrentDirectoryPath s
  let prompt := "PCMI [".toList ++ env.now ++ "] [".toList ++ currentDir ++ "]:> ".toList
  s |> Log (substr prompt 0 prompt.length)
    |> SetConsoleColor 11
    |> emit [Event.cout prompt]
    |> SetConsoleColor 10

/-- Lines 497-502: one turn of the loop of `main` on the line `command` read
from the console. -/
def mainLoopBody (env : Env) (fuel : Nat) (command : Str) (s : World) : Option World :=
  let s := PrintPrompt env s
  let s := SaveContext env (GetCurrentDirectoryPath s) s
  ParseCommand env fuel command s

/-- The state of a process that has just been started in the directory
`launchDir` over the files `fs`: the static initialisers of lines 34, 165
and 166 have run and nothing else. -/
def processStart (fs : Str → Option Str) (launchDir : Str) : World :=
  { stopCommand := false, logBuffer := [], cwd := launchDir, fs := fs, trace := [],
    exited := none }

/-! ## The classification order as the specification words it -/

/-- Where the dispatcher can send a line. -/
inductive Route
  | help | cls | pcmi | exit | netstat | route | register
  | changeDir | showDir | script | shell
  deriving DecidableEq, Repr

/-- The ordered list of rules of the specification: exact built-ins, the
prefix `cd `, exact `cd`, then the suffix `.pcml` on a line longer than 5. -/
def routingRules : List ((Str → Bool) × Route) :=
  [ (fun l => decide (l = "help".toList), Route.help),
    (fun l => decide (l = "cls".toList), Route.cls),
    (fun l => decide (l = "pcmi".toList), Route.pcmi),
    (fun l => decide (l = "exit".toList), Route.exit),
    (fun l => decide (l = "netstat".toList), Route.netstat),
    (fun l => decide (l = "route".toList), Route.route),
    (fun l => decide (l = "register".toList), Route.register),
    (fun l => decide ("cd ".toList <+: l), Route.changeDir),
    (fun l => decide (l = "cd".toList), Route.showDir),
    (fun l => decide (5 < l.length ∧ ".pcml".toList <:+ l), Route.script) ]

/-- First match wins; a line that matches no rule goes to the shell. -/
def firstMatch (line : Str) : Route :=
  match routingRules.find? (fun r => r.1 line) with
  | some r => r.2
  | none => Route.shell

/-- What each route does with the line. -/
def perform (env : Env) (fuel : Nat) : Route → Str → World → Option World
  | Route.help, _, s => some (helpCommand s)
  | Route.cls, _, s => some (clsCommand env s)
  | Route.pcmi, _, s => some (pcmiCommand s)
  | Route.exit, _, s => some (exitCommand env s)
  | Route.netstat, _, s => some (ExecuteCommand env "netstat -ano".toList s)
  | Route.route, _, s => some (ExecuteCommand env "route print".toList s)
  | Route.register, _, s => some (registerCommand env s)
  | Route.changeDir, line, s =>
    some (changeDirectory env (line.drop 3) { s with stopCommand := false })
  | Route.showDir, _, s => some (showDirectory s)
  | Route.script, line, s => ExecutePCMLFile env fuel line s
  | Route.shell, line, s => some (ExecuteCommand env line s)

/-! ## The script rules as the specification words them -/

/-- The calls one executed script line makes: the echo `<filePath>> <line>`
when echo is on, then `system(line)`. -/
def lineEvents (echoOn : Bool) (filePath line : Str) : List Event :=
  (if echoOn then
      [Event.setColor 14, Event.cout (filePath ++ "> ".toList ++ line ++ ['\n']),
        Event.setColor 10]
    else []) ++ [Event.system (cstr line)]

/-- The loop of lines 279-296 over a fixed list of lines, the first of them at
position `k`: what `scriptLoop` does when no child changes the script. -/
def scriptLines (env : Env) (filePath : Str) (echoOn : Bool) : Nat → List Str → World → World
  | _, [], s => s
  | k, line :: rest, s =>
    if s.stopCommand then { s with stopCommand := false }
    else if line = [] ∨ line.head? = some '@' then
      scriptLines env filePath echoOn (k + 1) rest s
    else
      scriptLines env filePath echoOn (k + 1) rest
        (runScriptLine env k line (if echoOn then echoLine filePath line s else s))

/-- A line after the first is run when it is non-empty and does not begin
with `@`. -/
def runnable (l : Str) : Bool := decide (l ≠ [] ∧ l.head? ≠ some '@')

/-- The commands of a script as the specification words them: the first line
if it is non-empty and does not contain `@echo off`, then the later lines
that are non-empty and do not begin with `@`. -/
def scriptCommands : List Str → List Str
  | [] => []
  | first :: later =>
    (if first ≠ [] ∧ ¬ "@echo off".toList <:+: first then [first] else []) ++
      later.filter runnable

/-- Whether a script echoes: its first line does not contain `@echo off`. -/
def echoMode (lines : List Str) : Bool :=
  decide (¬ "@echo off".toList <:+: lines.headD [])

/-- No child process changes the file at the absolute path `p`. -/
def keepsFile (env : Env) (p : Str) : Prop := ∀ cmd fs, env.shell cmd fs p = fs p

/-- The run of `ExecutePCMLFile` on a script with the text `content` read as a
fixed list of lines: what the function does when no child changes the
script. -/
def scriptRun (env : Env) (filePath content : Str) (s : World) : World :=
  if "@echo off".toList <:+: (getlines content).headD [] then
    scriptLines env filePath false 1 (getlines content).tail s
  else
    scriptLines env filePath true 1 (getlines content).tail
      (if (getlines content).headD [] ≠ [] then
        runScriptLine env 0 ((getlines content).headD [])
          (echoLine filePath ((getlines content).headD []) s)
      else s)

/-! ## Readings of the trace -/

/-- The replacement the specification asks for: `/` becomes `\`. -/
def slashToBackslash (c : Char) : Char := if c = '/' then '\\' else c

/-- The commands handed to `system`, in the order of the calls. -/
def systemCalls : List Event → List Str
  | [] => []
  | Event.system cmd :: es => cmd :: systemCalls es
  | _ :: es => systemCalls es

/-- The paths handed to `_chdir`, in the order of the calls. -/
def chdirCalls : List Event → List Str
  | [] => []
  | Event.chdir path :: es => path :: chdirCalls es
  | _ :: es => chdirCalls es

/-- The commands handed to `_popen`, in the order of the calls. -/
def popenCalls : List Event → List Str
  | [] => []
  | Event.popen cmd :: es => cmd :: popenCalls es
  | _ :: es => popenCalls es

/-! ## Concrete surroundings used to evaluate the program -/

/-- Surroundings in which file names are relative to the current directory,
every file opens for writing, every directory change succeeds, child
processes print nothing and Ctrl+C never arrives. -/
def plainEnv : Env :=
  { fullPath := fun cwd name => cwd ++ "\\".toList ++ name
    canWrite := fun _ => true
    chdir := fun _ path => some path
    popen := fun _ => some []
    shell := fun _ fs => fs
    ctrlC := fun _ => false
    now := "2025:01:01:00:00:00.000".toList
    exePath := "C:\\pcmi\\PCMI.exe".toList
    regCreateKey := fun _ => true }

/-- The surroundings `plainEnv`, except that no directory change succeeds. -/
def noDirEnv : Env := { plainEnv with chdir := fun _ _ => none }

/-- A world without files, in the directory `C:\pcmi`. -/
def emptyWorld : World := processStart (fun _ => none) "C:\\pcmi".toList

/-- The surroundings `plainEnv`, except that Ctrl+C arrives during the script
line at position 1. -/
def interruptEnv : Env := { plainEnv with ctrlC := fun k => decide (k = 1) }

/-- A world in the directory `C:\pcmi` whose only file is the script
`run.pcml` with the three lines `echo 1`, `echo 2`, `echo 3`. -/
def scriptWorld : World :=
  processStart
    (fun p => if p = "C:\\pcmi\\run.pcml".toList then some "echo 1\necho 2\necho 3\n".toList
      else none)
    "C:\\pcmi".toList

/-- The world `scriptWorld` with the interrupt flag left set, as after a
Ctrl+C at the prompt. -/
def staleWorld : World := { scriptWorld with stopCommand := true }

/-- A world in the directory `C:\pcmi` whose only file is the script
`demo.pcml` with the lines `@echo off`, `echo hi`, `@comment`, `echo bye`. -/
def demoWorld : World :=
  processStart
    (fun p => if p = "C:\\pcmi\\demo.pcml".toList then
        some "@echo off\necho hi\n@comment\necho bye\n".toList
      else none)
    "C:\\pcmi".toList

/-- A world in the directory `C:\pcmi` whose only file is the script
`nul.pcml` with the one line `echo a`, NUL, `z`. -/
def nulWorld : World :=
  processStart
    (fun p => if p = "C:\\pcmi\\nul.pcml".toList then
        some ("echo a".toList ++ [Char.ofNat 0] ++ "z\n".toList)
      else none)
    "C:\\pcmi".toList

/-! ## Lemmas on the string operations -/

theorem substr_zero_three_eq_iff (line : Str) :
    substr line 0 3 = "cd ".toList ↔ "cd ".toList <+: line := by
  unfold substr
  rw [List.prefix_iff_eq_take]
  simp only [List.drop_zero]
  constructor
  · intro h; rw [← h]; simp [h]
  · intro h
    have : ("cd ".toList).length = 3 := by decide
    rw [this] at h
    exact h.symm

theorem substrFrom_length_sub_eq_iff (line : Str) :
    substrFrom line (line.length - 5) = ".pcml".toList ↔ ".pcml".toList <:+ line := by
  unfold substrFrom
  rw [List.suffix_iff_eq_drop]
  have : (".pcml".toList).length = 5 := by decide
  rw [this]
  exact eq_comm

theorem ParseCommand_eq_perform (env : Env) (fuel : Nat) (s : World) (line : Str)
    (h : line ≠ []) :
    ParseCommand env fuel line s
      = perform env fuel (firstMatch line) line (Log ("Command: ".toList ++ line) s) := by
  unfold ParseCommand firstMatch routingRules
  simp only [if_neg h, substr_zero_three_eq_iff, substrFrom_length_sub_eq_iff]
  by_cases h1 : line = "help".toList
  · subst h1; rfl
  by_cases h2 : line = "cls".toList
  · subst h2; rfl
  by_cases h3 : line = "pcmi".toList
  · subst h3; rfl
  by_cases h4 : line = "exit".toList
  · subst h4; rfl
  by_cases h5 : line = "netstat".toList
  · subst h5; rfl
  by_cases h6 : line = "route".toList
  · subst h6; rfl
  by_cases h7 : line = "register".toList
  · subst h7; rfl
  by_cases h8 : "cd ".toList <+: line
  · simp only [List.find?, h1, h2, h3, h4, h5, h6, h7, h8, decide_False, decide_True, if_true,
      if_false, perform]
    unfold ExecuteCommand
    rw [if_pos ((substr_zero_three_eq_iff line).2 h8)]
    rfl
  by_cases h9 : line = "cd".toList
  · subst h9; rfl
  by_cases h10 : 5 < line.length ∧ ".pcml".toList <:+ line
  · have h10' : (line.length > 5 ∧ ".pcml".toList <:+ line) = True := eq_true h10
    simp only [List.find?, h1, h2, h3, h4, h5, h6, h7, h8, h9, eq_true h10, h10', decide_False,
      decide_True, if_true, if_false, perform]
  · have h10' : (line.length > 5 ∧ ".pcml".toList <:+ line) = False := eq_false h10
    simp only [List.find?, h1, h2, h3, h4, h5, h6, h7, h8, h9, eq_false h10, h10', decide_False,
      decide_True, if_true, if_false, perform]

/-- The lines of `getlines` are those of repeated `getline` calls. -/
theorem getlines_eq_getline (content : Str) :
    getlines content
      = match getline content with
        | none => []
        | some (line, rest) => line :: getlines rest := by
  induction content with
  | nil => rfl
  | cons c cs ih =>
    by_cases hc : c = '\n'
    · subst hc
      simp [getlines, getline]
    · have hT : (c :: cs).takeWhile (· ≠ '\n') = c :: cs.takeWhile (· ≠ '\n') := by
        simp [List.takeWhile, hc]
      have hD : (c :: cs).dropWhile (· ≠ '\n') = cs.dropWhile (· ≠ '\n') := by
        simp [List.dropWhile, hc]
      have hg : getline (c :: cs)
          = some (c :: cs.takeWhile (· ≠ '\n'), (cs.dropWhile (· ≠ '\n')).drop 1) := by
        unfold getline
        rw [if_neg (List.cons_ne_nil c cs), hT, hD]
      rw [hg]
      simp only [getlines, if_neg hc]
      rw [ih]
      unfold getline
      by_cases hcs : cs = []
      · subst hcs; simp [getlines]
      · simp [hcs]

theorem findChar_eq_none (p : Str) (c : Char) (h : findChar p c = none) : c ∉ p := by
  induction p with
  | nil => simp
  | cons x xs ih =>
    unfold findChar at h
    by_cases hx : x = c
    · rw [if_pos hx] at h; cases h
    · rw [if_neg hx] at h
      have hxs : findChar xs c = none := by
        cases hf : findChar xs c with
        | none => rfl
        | some i => rw [hf] at h; cases h
      simp only [List.mem_cons, not_or]
      exact ⟨fun hh => hx hh.symm, ih hxs⟩

theorem findChar_eq_some (p : Str) (c : Char) :
    ∀ i, findChar p c = some i → ∃ a b, p = a ++ c :: b ∧ c ∉ a ∧ i = a.length := by
  induction p with
  | nil => intro i h; cases h
  | cons x xs ih =>
    intro i h
    unfold findChar at h
    by_cases hx : x = c
    · rw [if_pos hx] at h
      cases h
      exact ⟨[], xs, by simp [hx], by simp, rfl⟩
    · rw [if_neg hx] at h
      cases hf : findChar xs c with
      | none => rw [hf] at h; cases h
      | some j =>
        rw [hf] at h
        simp only [Option.map_some', Option.some.injEq] at h
        obtain ⟨a, b, hp, ha, hj⟩ := ih j hf
        refine ⟨x :: a, b, by simp [hp], ?_, by simp [← h, hj]⟩
        simp only [List.mem_cons, not_or]
        exact ⟨fun hh => hx hh.symm, ha⟩

theorem replaceAt_append (a b : Str) (c : Char) (r : Str) :
    replaceAt (a ++ c :: b) a.length r = a ++ r ++ b := by
  unfold replaceAt
  simp

theorem map_slashToBackslash_of_not_mem (p : Str) (h : '/' ∉ p) :
    p.map slashToBackslash = p := by
  induction p with
  | nil => rfl
  | cons x xs ih =>
    simp only [List.mem_cons, not_or] at h
    have hx : x ≠ '/' := fun hh => h.1 hh.symm
    simp [slashToBackslash, hx, ih h.2]

theorem replaceSlashesLoop_eq_map :
    ∀ (fuel : Nat) (path : Str), path.count '/' ≤ fuel →
      replaceSlashesLoop fuel path = path.map slashToBackslash := by
  intro fuel
  induction fuel with
  | zero =>
    intro path h
    have hno : '/' ∉ path := by
      intro hm
      have := List.count_pos_iff.2 hm
      omega
    rw [map_slashToBackslash_of_not_mem path hno]
    rfl
  | succ fuel ih =>
    intro path h
    unfold replaceSlashesLoop
    cases hf : findChar path '/' with
    | none =>
      simp only []
      rw [map_slashToBackslash_of_not_mem path (findChar_eq_none path '/' hf)]
    | some pos =>
      simp only []
      obtain ⟨a, b, hp, ha, hpos⟩ := findChar_eq_some path '/' pos hf
      subst hp hpos
      rw [replaceAt_append]
      have hcount : (a ++ ['\\'] ++ b).count '/' ≤ fuel := by
        simp only [List.count_append, List.count_cons, List.count_nil] at h ⊢
        have e1 : (('/' : Char) == '/') = true := by decide
        have e2 : (('\\' : Char) == '/') = false := by decide
        simp only [e1, e2, if_true, Bool.false_eq_true, if_false] at h ⊢
        omega
      rw [ih _ hcount]
      simp only [List.map_append, List.map_cons, List.map_nil]
      rw [map_slashToBackslash_of_not_mem a ha]
      simp [slashToBackslash]

/-- Lines 307-310 replace every `/` of the path by `\`. -/
theorem replaceSlashes_eq_map (path : Str) :
    replaceSlashes path = path.map slashToBackslash :=
  replaceSlashesLoop_eq_map path.length path (List.count_le_length _ _)

/-- Lines 312-314 remove a pair of quotes around a path. -/
theorem stripQuotes_pair (inner : Str) (h : inner.length < 2 ^ 64) :
    stripQuotes ('"' :: inner ++ ['"']) = inner := by
  unfold stripQuotes
  have hc : ('"' :: inner ++ ['"']) ≠ [] ∧ ('"' :: inner ++ ['"']).head? = some '"'
      ∧ ('"' :: inner ++ ['"']).getLast? = some '"' := by
    refine ⟨by simp, by simp, ?_⟩
    rw [show ('"' :: inner ++ ['"']) = ('"' :: inner) ++ ['"'] by simp]
    exact List.getLast?_concat _
  rw [if_pos hc]
  have hlen : sizeSub ('"' :: inner ++ ['"']).length 2 = inner.length := by
    unfold sizeSub SIZE_T_BITS
    simp only [List.cons_append, List.length_cons, List.length_append, List.length_nil]
    norm_num at h ⊢
    omega
  rw [hlen]
  simp [substr]

/-- Lines 312-314 leave a path alone that does not both begin and end with a
quote. -/
theorem stripQuotes_of_not_quoted (path : Str)
    (h : ¬ (path.head? = some '"' ∧ path.getLast? = some '"')) :
    stripQuotes path = path := by
  unfold stripQuotes
  rw [if_neg (fun hh => h hh.2)]

theorem cstr_of_not_mem (s : Str) (h : Char.ofNat 0 ∉ s) : cstr s = s := by
  unfold cstr
  rw [List.takeWhile_eq_self_iff]
  intro x hx
  simp only [ne_eq, decide_not, Bool.not_eq_eq_eq_not, Bool.not_true, decide_eq_false_iff_not]
  rintro rfl
  exact h hx

theorem dropWhile_eq_drop (l : Str) (q : Char → Bool) :
    l.dropWhile q = l.drop (l.takeWhile q).length := by
  induction l with
  | nil => rfl
  | cons x xs ih =>
    by_cases hx : q x = true
    · simp [List.takeWhile, List.dropWhile, hx, ih]
    · simp [List.takeWhile, List.dropWhile, hx]

/-- The lines of a non-empty text: its first line, then the lines of what
follows the newline. -/
theorem getlines_of_ne_nil (text : Str) (h : text ≠ []) :
    getlines text
      = text.takeWhile (· ≠ '\n')
          :: getlines (text.drop ((text.takeWhile (· ≠ '\n')).length + 1)) := by
  rw [getlines_eq_getline text]
  unfold getline
  rw [if_neg h]
  simp only []
  rw [dropWhile_eq_drop, List.drop_drop]

theorem drop_takeWhile_of_not_mem (text : Str) (h : '\n' ∉ text) :
    text.drop ((text.takeWhile (· ≠ '\n')).length + 1) = [] := by
  have : text.takeWhile (· ≠ '\n') = text := by
    rw [List.takeWhile_eq_self_iff]
    intro x hx
    simp only [ne_eq, decide_not, Bool.not_eq_eq_eq_not, Bool.not_true,
      decide_eq_false_iff_not]
    rintro rfl
    exact h hx
  rw [this]
  exact List.drop_eq_nil_of_le (Nat.le_succ _)

/-! ## Lemmas on the script runner -/

theorem firstLine_eq_headD (content : Str) :
    firstLine content = (getlines content).headD [] := by
  unfold firstLine
  induction content with
  | nil => rfl
  | cons c cs ih =>
    by_cases hc : c = '\n'
    · simp [getlines, hc, List.takeWhile]
    · simp only [getlines, if_neg hc]
      rw [List.takeWhile_cons_of_pos (by simpa using hc), ih]
      cases getlines cs <;> rfl

theorem findStr_ne_none_iff (hay needle : Str) :
    findStr hay needle ≠ none ↔ needle <:+: hay := by
  induction hay with
  | nil =>
    by_cases hn : needle = []
    · simp [findStr, hn]
    · simp [findStr, hn]
  | cons x xs ih =>
    unfold findStr
    by_cases hp : needle.isPrefixOf (x :: xs) = true
    · rw [if_pos hp]
      simp only [ne_eq, reduceCtorEq, not_false_eq_true, true_iff]
      exact (List.isPrefixOf_iff_prefix.1 hp).isInfix
    · rw [if_neg hp]
      have hp' : ¬ needle <+: x :: xs := fun h => hp (List.isPrefixOf_iff_prefix.2 h)
      rw [List.infix_cons_iff]
      constructor
      · intro h
        right
        apply ih.1
        intro h0
        rw [h0] at h
        exact h rfl
      · rintro (h | h)
        · exact absurd h hp'
        · have := ih.2 h
          cases hf : findStr xs needle with
          | none => exact absurd hf this
          | some i => simp

theorem echoLine_trace (filePath line : Str) (s : World) :
    (echoLine filePath line s).trace = s.trace ++ [Event.setColor 14,
      Event.cout (filePath ++ "> ".toList ++ line ++ ['\n']), Event.setColor 10] := by
  simp [echoLine, SetConsoleColor, coutLine, emit]

theorem echoLine_stopCommand (filePath line : Str) (s : World) :
    (echoLine filePath line s).stopCommand = s.stopCommand := rfl

theorem echoLine_logBuffer (filePath line : Str) (s : World) :
    (echoLine filePath line s).logBuffer = s.logBuffer := rfl

theorem runScriptLine_trace (env : Env) (k : Nat) (line : Str) (s : World) :
    (runScriptLine env k line s).trace = s.trace ++ [Event.system (cstr line)] := by
  unfold runScriptLine
  by_cases h : env.ctrlC k = true <;> simp [h, callSystem, CtrlHandler, Log]

theorem runScriptLine_stopCommand (env : Env) (k : Nat) (line : Str) (s : World) :
    (runScriptLine env k line s).stopCommand = (s.stopCommand || env.ctrlC k) := by
  unfold runScriptLine
  by_cases h : env.ctrlC k = true <;> simp [h, callSystem, CtrlHandler, Log]

theorem runScriptLine_logBuffer (env : Env) (k : Nat) (line : Str) (s : World) :
    (runScriptLine env k line s).logBuffer
      = s.logBuffer ++ (if env.ctrlC k then ["Command interrupted by Ctrl+C".toList] else []) := by
  unfold runScriptLine
  by_cases h : env.ctrlC k = true <;> simp [h, callSystem, CtrlHandler, Log]

/-- One executed line: the state after the optional echo and the `system` call. -/
theorem lineStep_trace (env : Env) (filePath : Str) (echoOn : Bool) (k : Nat) (line : Str)
    (s : World) :
    (runScriptLine env k line (if echoOn then echoLine filePath line s else s)).trace
      = s.trace ++ lineEvents echoOn filePath line := by
  rw [runScriptLine_trace]
  cases echoOn <;> simp [lineEvents, echoLine_trace]

theorem lineStep_stopCommand (env : Env) (filePath : Str) (echoOn : Bool) (k : Nat)
    (line : Str) (s : World) :
    (runScriptLine env k line (if echoOn then echoLine filePath line s else s)).stopCommand
      = (s.stopCommand || env.ctrlC k) := by
  rw [runScriptLine_stopCommand]
  cases echoOn <;> simp [echoLine_stopCommand]

theorem lineStep_logBuffer (env : Env) (filePath : Str) (echoOn : Bool) (k : Nat)
    (line : Str) (s : World) :
    (runScriptLine env k line (if echoOn then echoLine filePath line s else s)).logBuffer
      = s.logBuffer ++ (if env.ctrlC k then ["Command interrupted by Ctrl+C".toList] else []) := by
  rw [runScriptLine_logBuffer]
  cases echoOn <;> simp [echoLine_logBuffer]

/-- Once the flag is set, the loop runs nothing more: it clears the flag when
a further line exists and returns. -/
theorem scriptLines_stopped (env : Env) (filePath : Str) (echoOn : Bool) (k : Nat)
    (rest : List Str) (s : World) (hs : s.stopCommand = true) :
    scriptLines env filePath echoOn k rest s
      = if rest = [] then s else { s with stopCommand := false } := by
  cases rest with
  | nil => simp [scriptLines]
  | cons line rest => simp [scriptLines, hs]

/-- Whatever the flag and the interrupts do, the loop only adds the calls of
some of the remaining lines, in file order. -/
theorem scriptLines_trace_sublist (env : Env) (filePath : Str) (echoOn : Bool) :
    ∀ (rest : List Str) (k : Nat) (s : World),
      ∃ cmds : List Str, cmds.Sublist rest ∧
        (scriptLines env filePath echoOn k rest s).trace
          = s.trace ++ cmds.flatMap (lineEvents echoOn filePath) := by
  intro rest
  induction rest with
  | nil => intro k s; exact ⟨[], List.Sublist.refl _, by simp [scriptLines]⟩
  | cons line rest ih =>
    intro k s
    unfold scriptLines
    by_cases hs : s.stopCommand = true
    · rw [if_pos hs]
      exact ⟨[], List.nil_sublist _, by simp⟩
    · rw [if_neg hs]
      by_cases hskip : line = [] ∨ line.head? = some '@'
      · rw [if_pos hskip]
        obtain ⟨cmds, hsub, htr⟩ := ih (k + 1) s
        exact ⟨cmds, hsub.cons _, htr⟩
      · rw [if_neg hskip]
        obtain ⟨cmds, hsub, htr⟩ := ih (k + 1)
          (runScriptLine env k line (if echoOn then echoLine filePath line s else s))
        refine ⟨line :: cmds, hsub.cons₂ _, ?_⟩
        rw [htr, lineStep_trace]
        simp [List.flatMap_cons, List.append_assoc]

/-- Without interrupts and with the flag clear, the loop executes exactly the
remaining lines that are non-empty and do not begin with `@`. -/
theorem scriptLines_quiet (env : Env) (filePath : Str) (echoOn : Bool)
    (hq : ∀ k, env.ctrlC k = false) :
    ∀ (rest : List Str) (k : Nat) (s : World), s.stopCommand = false →
      (scriptLines env filePath echoOn k rest s).trace
          = s.trace ++ (rest.filter runnable).flatMap
              (lineEvents echoOn filePath)
        ∧ (scriptLines env filePath echoOn k rest s).stopCommand = false
        ∧ (scriptLines env filePath echoOn k rest s).logBuffer = s.logBuffer := by
  intro rest
  induction rest with
  | nil => intro k s hs; simp [scriptLines, hs]
  | cons line rest ih =>
    intro k s hs
    unfold scriptLines
    rw [if_neg (by simp [hs])]
    by_cases hskip : line = [] ∨ line.head? = some '@'
    · rw [if_pos hskip]
      have hf : runnable line = false := by
        simp only [runnable, decide_eq_false_iff_not]
        rintro ⟨h1, h2⟩
        rcases hskip with h | h
        · exact h1 h
        · exact h2 h
      rw [List.filter_cons_of_neg (by simp [hf])]
      exact ih (k + 1) s hs
    · rw [if_neg hskip]
      have hf : runnable line = true := by
        simp only [runnable, decide_eq_true_eq]
        exact ⟨fun h => hskip (Or.inl h), fun h => hskip (Or.inr h)⟩
      rw [List.filter_cons_of_pos hf]
      have hs' : (runScriptLine env k line
          (if echoOn then echoLine filePath line s else s)).stopCommand = false := by
        rw [lineStep_stopCommand, hs, hq k]; rfl
      obtain ⟨h1, h2, h3⟩ := ih (k + 1) _ hs'
      refine ⟨?_, h2, ?_⟩
      · rw [h1, lineStep_trace]
        simp [List.flatMap_cons, List.append_assoc]
      · rw [h3, lineStep_logBuffer, hq k]; simp

/-- The loop reaches the line at offset `i` with the flag clear, runs it, and
Ctrl+C arrives during that line: nothing after it is run. -/
theorem scriptLines_interrupt (env : Env) (filePath : Str) (echoOn : Bool) :
    ∀ (rest : List Str) (p i : Nat) (s : World) (line : Str),
      rest[i]? = some line → runnable line = true → s.stopCommand = false →
      (∀ j, j < i → env.ctrlC (p + j) = false) → env.ctrlC (p + i) = true →
      (scriptLines env filePath echoOn p rest s).trace
          = s.trace ++ ((rest.take (i + 1)).filter runnable).flatMap
              (lineEvents echoOn filePath)
        ∧ (scriptLines env filePath echoOn p rest s).logBuffer
            = s.logBuffer ++ ["Command interrupted by Ctrl+C".toList]
        ∧ (i + 1 < rest.length →
            (scriptLines env filePath echoOn p rest s).stopCommand = false)
        ∧ (rest.length = i + 1 →
            (scriptLines env filePath echoOn p rest s).stopCommand = true) := by
  intro rest
  induction rest with
  | nil => intro p i s line h; simp at h
  | cons l rest ih =>
    intro p i s line hget hrun hs hbefore hat
    cases i with
    | zero =>
      simp only [List.getElem?_cons_zero, Option.some.injEq] at hget
      subst hget
      have hskip : ¬ (l = [] ∨ l.head? = some '@') := by
        simp only [runnable, decide_eq_true_eq] at hrun
        rintro (h | h)
        · exact hrun.1 h
        · exact hrun.2 h
      unfold scriptLines
      rw [if_neg (by simp [hs]), if_neg hskip]
      have hat' : env.ctrlC p = true := by simpa using hat
      have hs' : (runScriptLine env p l
          (if echoOn then echoLine filePath l s else s)).stopCommand = true := by
        rw [lineStep_stopCommand, hat']; simp
      rw [scriptLines_stopped env filePath echoOn (p + 1) rest _ hs']
      have htr := lineStep_trace env filePath echoOn p l s
      have hlog := lineStep_logBuffer env filePath echoOn p l s
      rw [hat'] at hlog
      simp only [if_true] at hlog
      by_cases hr : rest = []
      · subst hr
        simp only [if_true, List.take_succ_cons, List.take_nil, List.length_singleton]
        rw [List.filter_cons_of_pos hrun]
        refine ⟨?_, hlog, ?_, fun _ => hs'⟩
        · rw [htr]; simp
        · intro h; simp at h
      · rw [if_neg hr]
        simp only [List.take_succ_cons, List.take_zero]
        rw [List.filter_cons_of_pos hrun]
        refine ⟨?_, hlog, fun _ => trivial, ?_⟩
        · rw [htr]; simp
        · intro h
          exfalso
          apply hr
          simp only [List.length_cons, zero_add, add_left_eq_self] at h
          exact List.length_eq_zero.1 h
    | succ i =>
      simp only [List.getElem?_cons_succ] at hget
      have hp0 : env.ctrlC p = false := by simpa using hbefore 0 (Nat.succ_pos i)
      have hbefore' : ∀ j, j < i → env.ctrlC (p + 1 + j) = false := by
        intro j hj
        have := hbefore (j + 1) (Nat.succ_lt_succ hj)
        rwa [show p + (j + 1) = p + 1 + j by omega] at this
      have hat' : env.ctrlC (p + 1 + i) = true := by
        rwa [show p + (i + 1) = p + 1 + i by omega] at hat
      unfold scriptLines
      rw [if_neg (by simp [hs])]
      simp only [List.take_succ_cons, List.length_cons]
      by_cases hskip : l = [] ∨ l.head? = some '@'
      · rw [if_pos hskip]
        have hf : runnable l = false := by
          simp only [runnable, decide_eq_false_iff_not]
          rintro ⟨h1, h2⟩
          rcases hskip with h | h
          · exact h1 h
          · exact h2 h
        rw [List.filter_cons_of_neg (by simp [hf])]
        obtain ⟨h1, h2, h3, h4⟩ := ih (p + 1) i s line hget hrun hs hbefore' hat'
        exact ⟨h1, h2, fun h => h3 (by omega), fun h => h4 (by omega)⟩
      · rw [if_neg hskip]
        have hf : runnable l = true := by
          simp only [runnable, decide_eq_true_eq]
          exact ⟨fun h => hskip (Or.inl h), fun h => hskip (Or.inr h)⟩
        rw [List.filter_cons_of_pos hf]
        have hs' : (runScriptLine env p l
            (if echoOn then echoLine filePath l s else s)).stopCommand = false := by
          rw [lineStep_stopCommand, hs, hp0]; rfl
        obtain ⟨h1, h2, h3, h4⟩ := ih (p + 1) i _ line hget hrun hs' hbefore' hat'
        refine ⟨?_, ?_, fun h => h3 (by omega), fun h => h4 (by omega)⟩
        · rw [h1, lineStep_trace]
          simp [List.flatMap_cons, List.append_assoc]
        · rw [h2, lineStep_logBuffer, hp0]; simp

theorem systemCalls_append (a b : List Event) :
    systemCalls (a ++ b) = systemCalls a ++ systemCalls b := by
  induction a with
  | nil => rfl
  | cons e a ih => cases e <;> simp [systemCalls, ih]

theorem systemCalls_lineEvents (echoOn : Bool) (filePath : Str) (cmds : List Str) :
    systemCalls (cmds.flatMap (lineEvents echoOn filePath)) = cmds.map cstr := by
  induction cmds with
  | nil => rfl
  | cons c cmds ih =>
    rw [List.flatMap_cons, systemCalls_append, ih]
    cases echoOn <;> simp [lineEvents, systemCalls]

/-! ## The stream loop and the loop over a fixed list of lines -/

theorem scriptLoop_none (env : Env) (filePath : Str) (echoOn : Bool) (p : Str)
    (fuel k : Nat) (s : World) :
    scriptLoop env filePath echoOn p fuel k none s = some s := by
  cases fuel <;> rfl

theorem runScriptLine_fs (env : Env) (p : Str) (hkeep : keepsFile env p) (k : Nat)
    (line : Str) (s : World) :
    (runScriptLine env k line s).fs p = s.fs p := by
  unfold runScriptLine
  by_cases h : env.ctrlC k = true
  · simp only [h, if_true, CtrlHandler, Log, callSystem]
    exact hkeep _ _
  · simp only [h, Bool.false_eq_true, if_false, callSystem]
    exact hkeep _ _

theorem lineStep_fs (env : Env) (p : Str) (hkeep : keepsFile env p) (filePath : Str)
    (echoOn : Bool) (k : Nat) (line : Str) (s : World) :
    (runScriptLine env k line (if echoOn then echoLine filePath line s else s)).fs p
      = s.fs p := by
  rw [runScriptLine_fs env p hkeep]
  cases echoOn <;> rfl

/-- When no child changes the script, the stream loop with enough fuel is the
loop over the lines the script has left. -/
theorem scriptLoop_eq_scriptLines (env : Env) (filePath : Str) (echoOn : Bool) (p : Str)
    (hkeep : keepsFile env p) (content : Str) :
    ∀ (fuel k offset : Nat) (s : World), s.fs p = some content →
      (getlines (content.drop offset)).length < fuel →
      scriptLoop env filePath echoOn p fuel k (some offset) s
        = some (scriptLines env filePath echoOn k (getlines (content.drop offset)) s) := by
  intro fuel
  induction fuel with
  | zero => intro k offset s _ h; omega
  | succ fuel ih =>
    intro k offset s hfs hfuel
    have hun : unread s p offset = content.drop offset := by
      unfold unread; rw [hfs]; rfl
    unfold scriptLoop
    rw [hun]
    by_cases hnil : content.drop offset = []
    · rw [if_pos hnil, hnil]
      rfl
    · rw [if_neg hnil]
      have hlines := getlines_of_ne_nil (content.drop offset) hnil
      rw [List.drop_drop] at hlines
      rw [hlines] at hfuel ⊢
      simp only [List.length_cons] at hfuel
      by_cases hs : s.stopCommand = true
      · simp only [hs, if_true, scriptLines]
      · simp only [hs, Bool.false_eq_true, if_false, scriptLines]
        by_cases hnl : '\n' ∈ content.drop offset
        · have hoff : offset + (((content.drop offset).takeWhile (· ≠ '\n')).length + 1)
              = offset + ((content.drop offset).takeWhile (· ≠ '\n')).length + 1 := by omega
          rw [hoff] at hfuel ⊢
          simp only [hnl, if_true]
          by_cases hskip : (content.drop offset).takeWhile (· ≠ '\n') = []
              ∨ ((content.drop offset).takeWhile (· ≠ '\n')).head? = some '@'
          · rw [if_pos hskip, if_pos hskip]
            exact ih _ _ s hfs (by omega)
          · rw [if_neg hskip, if_neg hskip]
            exact ih _ _ _ ((lineStep_fs env p hkeep _ _ _ _ s).trans hfs) (by omega)
        · have hrest := drop_takeWhile_of_not_mem (content.drop offset) hnl
          rw [List.drop_drop] at hrest
          rw [hrest]
          simp only [hnl, if_false, scriptLoop_none, getlines, scriptLines]
          by_cases hskip : (content.drop offset).takeWhile (· ≠ '\n') = []
              ∨ ((content.drop offset).takeWhile (· ≠ '\n')).head? = some '@'
          · rw [if_pos hskip, if_pos hskip]
          · rw [if_neg hskip, if_neg hskip]

/-- When no child changes the script, `ExecutePCMLFile` with enough fuel ends
and does what the run over the fixed list of lines does. -/
theorem ExecutePCMLFile_eq_scriptRun (env : Env) (fuel : Nat) (filePath content : Str)
    (s : World)
    (hopen : s.fs (env.fullPath s.cwd (cstr filePath)) = some content)
    (hkeep : keepsFile env (env.fullPath s.cwd (cstr filePath)))
    (hfuel : (getlines content).length ≤ fuel) :
    ExecutePCMLFile env fuel filePath s = some (scriptRun env filePath content s) := by
  unfold ExecutePCMLFile scriptRun
  rw [hopen]
  simp only [firstLine_eq_headD]
  simp only [findStr_ne_none_iff]
  by_cases hc : content = []
  · subst hc
    have h0 : ¬ "@echo off".toList <:+: (getlines []).headD [] := by decide
    rw [if_neg h0, if_neg h0]
    simp [getlines, scriptLoop_none, scriptLines]
  · have hlines := getlines_of_ne_nil content hc
    have hhead : (getlines content).headD [] = content.takeWhile (· ≠ '\n') := by
      rw [hlines]; rfl
    have htail : (getlines content).tail
        = getlines (content.drop ((content.takeWhile (· ≠ '\n')).length + 1)) := by
      rw [hlines]; rfl
    have hlen : (getlines (content.drop ((content.takeWhile (· ≠ '\n')).length + 1))).length
        < fuel := by
      rw [hlines] at hfuel
      simp only [List.length_cons] at hfuel
      omega
    rw [htail, hhead]
    have hfs1 : (if content.takeWhile (· ≠ '\n') ≠ [] then
          runScriptLine env 0 (content.takeWhile (· ≠ '\n'))
            (echoLine filePath (content.takeWhile (· ≠ '\n')) s)
        else s).fs (env.fullPath s.cwd (cstr filePath)) = some content := by
      by_cases hl : content.takeWhile (· ≠ '\n') ≠ []
      · rw [if_pos hl, runScriptLine_fs env _ hkeep]
        exact hopen
      · rw [if_neg hl]
        exact hopen
    by_cases hnl : '\n' ∈ content
    · simp only [hnl, if_true]
      by_cases hoff : "@echo off".toList <:+: content.takeWhile (· ≠ '\n')
      · rw [if_pos hoff, if_pos hoff]
        exact scriptLoop_eq_scriptLines env filePath false _ hkeep content fuel 1 _ s hopen hlen
      · rw [if_neg hoff, if_neg hoff]
        exact scriptLoop_eq_scriptLines env filePath true _ hkeep content fuel 1 _ _ hfs1 hlen
    · rw [drop_takeWhile_of_not_mem content hnl]
      simp only [hnl, if_false, scriptLoop_none, getlines, scriptLines]
      by_cases hoff : "@echo off".toList <:+: content.takeWhile (· ≠ '\n')
      · rw [if_pos hoff, if_pos hoff]
      · rw [if_neg hoff, if_neg hoff]

/-- Whatever the children do to the script, a loop that ends has only added
the calls of lines it has run, each echo directly before its `system` call. -/
theorem scriptLoop_trace_pairs (env : Env) (filePath : Str) (echoOn : Bool) (p : Str) :
    ∀ (fuel k : Nat) (stream : Option Nat) (s r : World),
      scriptLoop env filePath echoOn p fuel k stream s = some r →
      ∃ cmds : List Str, r.trace = s.trace ++ cmds.flatMap (lineEvents echoOn filePath) := by
  intro fuel
  induction fuel with
  | zero =>
    intro k stream s r h
    cases stream with
    | none =>
      rw [scriptLoop_none] at h
      cases h
      exact ⟨[], by simp⟩
    | some offset => simp [scriptLoop] at h
  | succ fuel ih =>
    intro k stream s r h
    cases stream with
    | none =>
      rw [scriptLoop_none] at h
      cases h
      exact ⟨[], by simp⟩
    | some offset =>
      unfold scriptLoop at h
      by_cases hnil : unread s p offset = []
      · rw [if_pos hnil] at h
        cases h
        exact ⟨[], by simp⟩
      · rw [if_neg hnil] at h
        by_cases hs : s.stopCommand = true
        · simp only [hs, if_true, Option.some.injEq] at h
          subst h
          exact ⟨[], by simp⟩
        · simp only [hs, Bool.false_eq_true, if_false] at h
          by_cases hskip : (unread s p offset).takeWhile (· ≠ '\n') = []
              ∨ ((unread s p offset).takeWhile (· ≠ '\n')).head? = some '@'
          · rw [if_pos hskip] at h
            exact ih _ _ _ _ h
          · rw [if_neg hskip] at h
            obtain ⟨cmds, hc⟩ := ih _ _ _ _ h
            refine ⟨(unread s p offset).takeWhile (· ≠ '\n') :: cmds, ?_⟩
            rw [hc, lineStep_trace]
            simp [List.flatMap_cons, List.append_assoc]

/-- Whatever the children do to the script, a run of `ExecutePCMLFile` that
ends on a file that opened has only added the calls of lines it has run. -/
theorem ExecutePCMLFile_trace_pairs (env : Env) (fuel : Nat) (filePath content : Str)
    (s r : World)
    (hopen : s.fs (env.fullPath s.cwd (cstr filePath)) = some content)
    (hrun : ExecutePCMLFile env fuel filePath s = some r) :
    ∃ cmds : List Str, r.trace = s.trace ++ cmds.flatMap
      (lineEvents (decide (¬ "@echo off".toList <:+: (getlines content).headD [])) filePath) := by
  unfold ExecutePCMLFile at hrun
  rw [hopen] at hrun
  simp only [firstLine_eq_headD, findStr_ne_none_iff] at hrun
  by_cases hoff : "@echo off".toList <:+: (getlines content).headD []
  · rw [if_pos hoff] at hrun
    simp only [hoff, not_true_eq_false, decide_False]
    exact scriptLoop_trace_pairs env filePath false _ _ _ _ _ _ hrun
  · rw [if_neg hoff] at hrun
    simp only [hoff, not_false_eq_true, decide_True]
    obtain ⟨cmds, hc⟩ := scriptLoop_trace_pairs env filePath true _ _ _ _ _ _ hrun
    by_cases hl : (getlines content).headD [] ≠ []
    · rw [if_pos hl] at hc
      refine ⟨(getlines content).headD [] :: cmds, ?_⟩
      have := lineStep_trace env filePath true 0 ((getlines content).headD []) s
      simp only [if_true] at this
      rw [hc, this]
      simp [List.flatMap_cons, List.append_assoc]
    · rw [if_neg hl] at hc
      exact ⟨cmds, hc⟩

/-! ## Lemmas on directory changes and the child shell -/

theorem chdirCalls_append (a b : List Event) :
    chdirCalls (a ++ b) = chdirCalls a ++ chdirCalls b := by
  induction a with
  | nil => rfl
  | cons e a ih => cases e <;> simp [chdirCalls, ih]

theorem popenCalls_append (a b : List Event) :
    popenCalls (a ++ b) = popenCalls a ++ popenCalls b := by
  induction a with
  | nil => rfl
  | cons e a ih => cases e <;> simp [popenCalls, ih]

theorem ExecuteCommand_cd (env : Env) (arg : Str) (s : World) :
    ExecuteCommand env ("cd ".toList ++ arg) s
      = changeDirectory env arg { s with stopCommand := false } := by
  unfold ExecuteCommand
  have h : substr ("cd ".toList ++ arg) 0 3 = "cd ".toList := rfl
  rw [if_pos h]
  rfl

/-- Reading the pipe changes neither the current directory nor the calls to
`_chdir` and `_popen`, and only appends to the log. -/
theorem pipe_foldl (items : List PipeItem) :
    ∀ s : World,
      (items.foldl pipeStep s).cwd = s.cwd
        ∧ chdirCalls (items.foldl pipeStep s).trace = chdirCalls s.trace
        ∧ popenCalls (items.foldl pipeStep s).trace = popenCalls s.trace
        ∧ ∃ more, (items.foldl pipeStep s).logBuffer = s.logBuffer ++ more := by
  induction items with
  | nil => intro s; exact ⟨rfl, rfl, rfl, [], by simp⟩
  | cons item items ih =>
    intro s
    obtain ⟨h1, h2, h3, more, h4⟩ := ih (pipeStep s item)
    simp only [List.foldl_cons]
    cases item with
    | chunk text =>
      refine ⟨h1, ?_, ?_, text :: more, ?_⟩
      · rw [h2]; simp [pipeStep, emit, Log, chdirCalls_append, chdirCalls]
      · rw [h3]; simp [pipeStep, emit, Log, popenCalls_append, popenCalls]
      · rw [h4]; simp [pipeStep, emit, Log]
    | ctrlC =>
      refine ⟨h1, h2, h3, "Command interrupted by Ctrl+C".toList :: more, ?_⟩
      rw [h4]; simp [pipeStep, CtrlHandler, Log]

/-- The child-shell branch makes exactly one `_popen` call, on the C string
of `cmd /c ` followed by the command. -/
theorem runShell_popenCalls (env : Env) (command : Str) (s : World) :
    popenCalls (runShell env command s).trace
      = popenCalls s.trace ++ [cstr ("cmd /c ".toList ++ command)] := by
  unfold runShell
  simp only []
  cases hp : env.popen (cstr ("cmd /c ".toList ++ command)) with
  | none =>
    simp [SetConsoleColor, coutLine, emit, Log, popenCalls_append, popenCalls]
  | some items =>
    simp only []
    have h := (pipe_foldl items
      { emit [Event.popen (cstr ("cmd /c ".toList ++ command))]
          (Log ("Executing: ".toList ++ command) s) with
        fs := env.shell (cstr ("cmd /c ".toList ++ command))
          (emit [Event.popen (cstr ("cmd /c ".toList ++ command))]
            (Log ("Executing: ".toList ++ command) s)).fs }).2.2.1
    simp only [emit, popenCalls_append] at h ⊢
    rw [h]
    simp [Log, popenCalls]

/-- The directory-change branch runs no script line and no child shell. -/
theorem changeDirectory_calls (env : Env) (arg : Str) (s : World) :
    systemCalls (changeDirectory env arg s).trace = systemCalls s.trace
      ∧ popenCalls (changeDirectory env arg s).trace = popenCalls s.trace := by
  unfold changeDirectory
  simp only []
  cases cdTarget s.cwd (stripQuotes (replaceSlashes arg)) with
  | none => exact ⟨rfl, rfl⟩
  | some path =>
    simp only []
    cases env.chdir (emit [Event.chdir (cstr path)] s).cwd (cstr path) with
    | none =>
      constructor
      · simp [SetConsoleColor, coutLine, emit, Log, systemCalls_append, systemCalls]
      · simp [SetConsoleColor, coutLine, emit, Log, popenCalls_append, popenCalls]
    | some d =>
      constructor
      · simp [emit, systemCalls_append, systemCalls]
      · simp [emit, popenCalls_append, popenCalls]

/-! ## Lemmas on the session context -/

theorem firstLine_eq_self (d : Str) (h : '\n' ∉ d) : firstLine d = d := by
  unfold firstLine
  rw [List.takeWhile_eq_self_iff]
  intro x hx
  simp only [ne_eq, decide_not, Bool.not_eq_eq_eq_not, Bool.not_true, decide_eq_false_iff_not]
  rintro rfl
  exact h hx

theorem LoadContext_of_file (env : Env) (s : World) (content : Str)
    (h : s.fs (env.fullPath s.cwd CONTEXT_FILE) = some content) :
    LoadContext env s = firstLine content := by
  unfold LoadContext FILE_EXISTS
  simp [h]

theorem LoadContext_of_no_file (env : Env) (s : World)
    (h : s.fs (env.fullPath s.cwd CONTEXT_FILE) = none) :
    LoadContext env s = [] := by
  unfold LoadContext FILE_EXISTS
  simp [h]

theorem SaveContext_fs (env : Env) (d : Str) (s : World)
    (hwrite : env.canWrite (env.fullPath s.cwd CONTEXT_FILE) = true) :
    (SaveContext env d s).fs (env.fullPath s.cwd CONTEXT_FILE) = some d := by
  unfold SaveContext writeFile
  simp [hwrite, fsWrite]

theorem PrintStatus_fields (message : Str) (success : Bool) (s : World) :
    (PrintStatus message success s).cwd = s.cwd
      ∧ (PrintStatus message success s).fs = s.fs
      ∧ chdirCalls (PrintStatus message success s).trace = chdirCalls s.trace := by
  refine ⟨rfl, rfl, ?_⟩
  simp [PrintStatus, SetConsoleColor, coutLine, emit, chdirCalls_append, chdirCalls]

theorem writeFile_fields (env : Env) (name text : Str) (s : World) :
    (writeFile env name text s).1.cwd = s.cwd
      ∧ (writeFile env name text s).1.trace = s.trace
      ∧ ((writeFile env name text s).1.fs = s.fs
          ∨ (writeFile env name text s).1.fs
              = fsWrite s.fs (env.fullPath s.cwd name) text) := by
  unfold writeFile
  by_cases h : env.canWrite (env.fullPath s.cwd name) = true
  · simp [h]
  · simp [h]

/-- The function `Initialize` calls `_chdir` on the saved directory it loads, when that is
not empty, and continues in the directory the call yields. -/
theorem Initialize_resume (env : Env) (s : World) (saved : Str) (hsaved : saved ≠ [])
    (hload : ∀ w : World, w.cwd = s.cwd →
      (w.fs = s.fs ∨ w.fs = fsWrite s.fs (env.fullPath s.cwd SHUTDOWN_FLAG_FILE)
        "False".toList) → LoadContext env w = saved) :
    chdirCalls (Initialize env s).trace = chdirCalls s.trace ++ [cstr saved]
      ∧ (Initialize env s).cwd = (env.chdir s.cwd (cstr saved)).getD s.cwd := by
  unfold Initialize
  simp only []
  have h1 := PrintStatus_fields ("读取 ".toList ++ SHUTDOWN_FLAG_FILE)
    (FILE_EXISTS env SHUTDOWN_FLAG_FILE (coutLine "正在启动 PCMI...".toList s))
    (coutLine "正在启动 PCMI...".toList s)
  have h2 := writeFile_fields env SHUTDOWN_FLAG_FILE "False".toList
    (PrintStatus ("读取 ".toList ++ SHUTDOWN_FLAG_FILE)
      (FILE_EXISTS env SHUTDOWN_FLAG_FILE (coutLine "正在启动 PCMI...".toList s))
      (coutLine "正在启动 PCMI...".toList s))
  have h3 := PrintStatus_fields ("更改 ".toList ++ SHUTDOWN_FLAG_FILE ++ " 为 False".toList)
    (writeFile env SHUTDOWN_FLAG_FILE "False".toList
      (PrintStatus ("读取 ".toList ++ SHUTDOWN_FLAG_FILE)
        (FILE_EXISTS env SHUTDOWN_FLAG_FILE (coutLine "正在启动 PCMI...".toList s))
        (coutLine "正在启动 PCMI...".toList s))).2
    (writeFile env SHUTDOWN_FLAG_FILE "False".toList
      (PrintStatus ("读取 ".toList ++ SHUTDOWN_FLAG_FILE)
        (FILE_EXISTS env SHUTDOWN_FLAG_FILE (coutLine "正在启动 PCMI...".toList s))
        (coutLine "正在启动 PCMI...".toList s))).1
  generalize PrintStatus ("更改 ".toList ++ SHUTDOWN_FLAG_FILE ++ " 为 False".toList)
    (writeFile env SHUTDOWN_FLAG_FILE "False".toList
      (PrintStatus ("读取 ".toList ++ SHUTDOWN_FLAG_FILE)
        (FILE_EXISTS env SHUTDOWN_FLAG_FILE (coutLine "正在启动 PCMI...".toList s))
        (coutLine "正在启动 PCMI...".toList s))).2
    (writeFile env SHUTDOWN_FLAG_FILE "False".toList
      (PrintStatus ("读取 ".toList ++ SHUTDOWN_FLAG_FILE)
        (FILE_EXISTS env SHUTDOWN_FLAG_FILE (coutLine "正在启动 PCMI...".toList s))
        (coutLine "正在启动 PCMI...".toList s))).1 = s2 at h3 ⊢
  have hcwd : s2.cwd = s.cwd := by
    rw [h3.1, h2.1, h1.1]; rfl
  have hfs : s2.fs = s.fs ∨ s2.fs
      = fsWrite s.fs (env.fullPath s.cwd SHUTDOWN_FLAG_FILE) "False".toList := by
    rw [h3.2.1]
    rcases h2.2.2 with h | h
    · left; rw [h, h1.2.1]; rfl
    · right; rw [h, h1.2.1, h1.1]; rfl
  have htr : chdirCalls s2.trace = chdirCalls s.trace := by
    rw [h3.2.2, h2.2.1, h1.2.2]
    simp [coutLine, emit, chdirCalls_append, chdirCalls]
  rw [hload s2 hcwd hfs, if_pos hsaved, hcwd]
  cases hc : env.chdir s.cwd (cstr saved) with
  | none =>
    simp [callSystem, Log, coutLine, emit, PrintStatus, SetConsoleColor, chdirCalls_append,
      chdirCalls, htr, hcwd]
  | some dir =>
    simp [callSystem, Log, coutLine, emit, PrintStatus, SetConsoleColor, chdirCalls_append,
      chdirCalls, htr]

/-! ## Lemmas on the run over a fixed list of lines -/

/-- The run over a fixed list of lines, without interrupts and with the flag
clear, executes the commands the specification lists. -/
theorem scriptRun_commands (env : Env) (filePath content : Str) (s : World)
    (hflag : s.stopCommand = false) (hquiet : ∀ k, env.ctrlC k = false) :
    (scriptRun env filePath content s).trace
        = s.trace ++ (scriptCommands (getlines content)).flatMap
            (lineEvents (echoMode (getlines content)) filePath)
      ∧ systemCalls (scriptRun env filePath content s).trace
          = systemCalls s.trace ++ (scriptCommands (getlines content)).map cstr
      ∧ (getlines content = ["@echo off".toList, "echo hi".toList, "@comment".toList,
            "echo bye".toList] →
          (scriptRun env filePath content s).trace
            = s.trace ++ [Event.system "echo hi".toList, Event.system "echo bye".toList]) := by
  have key : (scriptRun env filePath content s).trace
        = s.trace ++ (scriptCommands (getlines content)).flatMap
            (lineEvents (echoMode (getlines content)) filePath) := by
    unfold scriptRun
    cases hl : getlines content with
    | nil =>
      have h0 : ¬ "@echo off".toList <:+: ([] : Str) := by decide
      simp [scriptCommands, scriptLines, h0]
    | cons first later =>
      simp only [List.headD_cons, List.tail_cons, echoMode, scriptCommands]
      by_cases h : "@echo off".toList <:+: first
      · rw [if_pos h]
        have hne : ¬ (first ≠ [] ∧ ¬ "@echo off".toList <:+: first) := fun hh => hh.2 h
        rw [if_neg hne]
        simp only [h, not_true_eq_false, decide_False, List.nil_append]
        exact (scriptLines_quiet env filePath false hquiet later 1 s hflag).1
      · rw [if_neg h]
        simp only [h, not_false_eq_true, decide_True, and_true]
        by_cases hf : first = []
        · have hf' : ¬ first ≠ [] := fun hh => hh hf
          rw [if_neg hf', if_neg hf']
          simp only [List.nil_append]
          exact (scriptLines_quiet env filePath true hquiet later 1 s hflag).1
        · have hf' : first ≠ [] := hf
          rw [if_pos hf', if_pos hf']
          have hs' : (runScriptLine env 0 first (echoLine filePath first s)).stopCommand
              = false := by
            rw [runScriptLine_stopCommand, echoLine_stopCommand, hflag, hquiet 0]; rfl
          rw [(scriptLines_quiet env filePath true hquiet later 1 _ hs').1]
          have := lineStep_trace env filePath true 0 first s
          simp only [if_true] at this
          rw [this]
          simp [List.flatMap_cons, List.append_assoc]
  refine ⟨key, ?_, ?_⟩
  · rw [key, systemCalls_append, systemCalls_lineEvents]
  · intro hl
    have e1 : scriptCommands ["@echo off".toList, "echo hi".toList, "@comment".toList,
        "echo bye".toList] = ["echo hi".toList, "echo bye".toList] := by decide
    have e2 : echoMode ["@echo off".toList, "echo hi".toList, "@comment".toList,
        "echo bye".toList] = false := by decide
    rw [key, hl, e1, e2]
    rfl

/-- The run over a fixed list of lines echoes nothing when the first line
contains `@echo off`, and otherwise echoes every line directly before it
executes it; the lines it executes are some of the lines of the script. -/
theorem scriptRun_echo (env : Env) (filePath content : Str) (s : World) :
    ∃ cmds : List Str, cmds.Sublist (getlines content) ∧
      ("@echo off".toList <:+: (getlines content).headD [] →
        (scriptRun env filePath content s).trace
          = s.trace ++ cmds.map (fun line => Event.system (cstr line))) ∧
      (¬ "@echo off".toList <:+: (getlines content).headD [] →
        (scriptRun env filePath content s).trace
          = s.trace ++ cmds.flatMap (fun line =>
              [Event.setColor 14, Event.cout (filePath ++ "> ".toList ++ line ++ ['\n']),
                Event.setColor 10, Event.system (cstr line)])) := by
  unfold scriptRun
  have hoff : ∀ cmds : List Str,
      cmds.flatMap (lineEvents false filePath)
        = cmds.map (fun line => Event.system (cstr line)) := by
    intro cmds
    induction cmds with
    | nil => rfl
    | cons c cmds ih => rw [List.flatMap_cons, ih]; rfl
  have hon : ∀ cmds : List Str,
      cmds.flatMap (lineEvents true filePath) = cmds.flatMap (fun line =>
        [Event.setColor 14, Event.cout (filePath ++ "> ".toList ++ line ++ ['\n']),
          Event.setColor 10, Event.system (cstr line)]) := by
    intro cmds
    induction cmds with
    | nil => rfl
    | cons c cmds ih => rw [List.flatMap_cons, List.flatMap_cons, ih]; rfl
  by_cases h : "@echo off".toList <:+: (getlines content).headD []
  · rw [if_pos h]
    obtain ⟨cmds, hsub, htr⟩ :=
      scriptLines_trace_sublist env filePath false (getlines content).tail 1 s
    refine ⟨cmds, hsub.trans (List.tail_sublist _), fun _ => ?_, fun h' => absurd h h'⟩
    rw [htr, hoff]
  · rw [if_neg h]
    cases hl : getlines content with
    | nil =>
      refine ⟨[], List.Sublist.refl _, fun h' => ?_, fun _ => ?_⟩
      · rw [hl] at h; exact absurd h' h
      · simp [scriptLines]
    | cons first later =>
      simp only [List.headD_cons, List.tail_cons]
      rw [hl] at h
      simp only [List.headD_cons] at h
      by_cases hf : first = []
      · have hf' : ¬ first ≠ [] := fun hh => hh hf
        rw [if_neg hf']
        obtain ⟨cmds, hsub, htr⟩ := scriptLines_trace_sublist env filePath true later 1 s
        refine ⟨cmds, hsub.cons _, fun h' => absurd h' h, fun _ => ?_⟩
        rw [htr, hon]
      · have hf' : first ≠ [] := hf
        rw [if_pos hf']
        obtain ⟨cmds, hsub, htr⟩ := scriptLines_trace_sublist env filePath true later 1
          (runScriptLine env 0 first (echoLine filePath first s))
        refine ⟨first :: cmds, hsub.cons₂ _, fun h' => absurd h' h, fun _ => ?_⟩
        rw [htr, runScriptLine_trace, echoLine_trace, hon]
        simp [List.flatMap_cons, List.append_assoc]

/-- The run over a fixed list of lines stops after the line during which
Ctrl+C arrives. -/
theorem scriptRun_interrupt (env : Env) (filePath content : Str)
    (s : World) (k : Nat) (line : Str)
    (hk : (getlines content)[k]? = some line)
    (hrun : (k = 0 → line ≠ [] ∧ ¬ "@echo off".toList <:+: line)
      ∧ (0 < k → runnable line = true))
    (hreach : k = 0 ∨ (s.stopCommand = false ∧ ∀ j, j < k → env.ctrlC j = false))
    (hint : env.ctrlC k = true) :
    (scriptRun env filePath content s).trace
        = s.trace ++ (scriptCommands ((getlines content).take (k + 1))).flatMap
            (lineEvents (echoMode (getlines content)) filePath)
      ∧ (scriptRun env filePath content s).logBuffer
          = s.logBuffer ++ ["Command interrupted by Ctrl+C".toList]
      ∧ (k + 1 < (getlines content).length →
          (scriptRun env filePath content s).stopCommand = false) := by
  unfold scriptRun
  cases hl : getlines content with
  | nil => rw [hl] at hk; simp at hk
  | cons first later =>
    rw [hl] at hk
    simp only [List.headD_cons, List.tail_cons, echoMode, List.take_succ_cons, scriptCommands,
      List.length_cons]
    cases k with
    | zero =>
      simp only [List.getElem?_cons_zero, Option.some.injEq] at hk
      subst hk
      obtain ⟨hne, hoff⟩ := hrun.1 rfl
      rw [if_neg hoff, if_pos hne, if_pos ⟨hne, hoff⟩]
      simp only [hoff, not_false_eq_true, decide_True, List.take_zero, List.filter_nil,
        List.append_nil]
      have hs' : (runScriptLine env 0 first (echoLine filePath first s)).stopCommand
          = true := by
        rw [runScriptLine_stopCommand, hint]; simp
      rw [scriptLines_stopped env filePath true 1 later _ hs']
      have htr := lineStep_trace env filePath true 0 first s
      have hlog := lineStep_logBuffer env filePath true 0 first s
      simp only [if_true, hint] at htr hlog
      by_cases hr : later = []
      · subst hr
        simp only [if_true]
        refine ⟨?_, hlog, ?_⟩
        · rw [htr]; simp
        · intro h; simp at h
      · rw [if_neg hr]
        refine ⟨?_, hlog, fun _ => rfl⟩
        show (runScriptLine env 0 first (echoLine filePath first s)).trace = _
        rw [htr]; simp
    | succ k =>
      simp only [List.getElem?_cons_succ] at hk
      have hrun' : runnable line = true := hrun.2 (Nat.succ_pos k)
      obtain ⟨hflag, hbefore⟩ : s.stopCommand = false ∧
          ∀ j, j < k + 1 → env.ctrlC j = false := by
        rcases hreach with h | h
        · exact absurd h (Nat.succ_ne_zero k)
        · exact h
      have h0 : env.ctrlC 0 = false := hbefore 0 (Nat.succ_pos k)
      have hbefore' : ∀ j, j < k → env.ctrlC (1 + j) = false := by
        intro j hj
        exact hbefore (1 + j) (by omega)
      have hint' : env.ctrlC (1 + k) = true := by
        rwa [show k + 1 = 1 + k by omega] at hint
      by_cases h : "@echo off".toList <:+: first
      · rw [if_pos h]
        have hne : ¬ (first ≠ [] ∧ ¬ "@echo off".toList <:+: first) := fun hh => hh.2 h
        rw [if_neg hne]
        simp only [h, not_true_eq_false, decide_False, List.nil_append]
        obtain ⟨h1, h2, h3, _⟩ := scriptLines_interrupt env filePath false later 1 k s line
          hk hrun' hflag hbefore' hint'
        exact ⟨h1, h2, fun hh => h3 (by omega)⟩
      · rw [if_neg h]
        simp only [h, not_false_eq_true, decide_True, and_true]
        by_cases hf : first = []
        · have hf' : ¬ first ≠ [] := fun hh => hh hf
          rw [if_neg hf', if_neg hf']
          simp only [List.nil_append]
          obtain ⟨h1, h2, h3, _⟩ := scriptLines_interrupt env filePath true later 1 k s line
            hk hrun' hflag hbefore' hint'
          exact ⟨h1, h2, fun hh => h3 (by omega)⟩
        · have hf' : first ≠ [] := hf
          rw [if_pos hf', if_pos hf']
          have hs' : (runScriptLine env 0 first (echoLine filePath first s)).stopCommand
              = false := by
            rw [runScriptLine_stopCommand, echoLine_stopCommand, hflag, h0]; rfl
          obtain ⟨h1, h2, h3, _⟩ := scriptLines_interrupt env filePath true later 1 k _ line
            hk hrun' hs' hbefore' hint'
          have htr := lineStep_trace env filePath true 0 first s
          have hlog := lineStep_logBuffer env filePath true 0 first s
          simp only [if_true, h0] at htr hlog
          refine ⟨?_, ?_, fun hh => h3 (by omega)⟩
          · rw [h1, htr]
            simp [List.flatMap_cons, List.append_assoc]
          · rw [h2, hlog]; simp

theorem flatMap_lineEvents_false (filePath : Str) (cmds : List Str) :
    cmds.flatMap (lineEvents false filePath)
      = cmds.map (fun line => Event.system (cstr line)) := by
  induction cmds with
  | nil => rfl
  | cons c cmds ih => rw [List.flatMap_cons, ih]; rfl

theorem flatMap_lineEvents_true (filePath : Str) (cmds : List Str) :
    cmds.flatMap (lineEvents true filePath)
      = cmds.flatMap (fun line =>
          [Event.setColor 14, Event.cout (filePath ++ "> ".toList ++ line ++ ['\n']),
            Event.setColor 10, Event.system (cstr line)]) := by
  induction cmds with
  | nil => rfl
  | cons c cmds ih => rw [List.flatMap_cons, List.flatMap_cons, ih]; rfl

theorem scriptCommands_subset (lines : List Str) :
    ∀ l ∈ scriptCommands lines, l ∈ lines := by
  intro l hl
  cases lines with
  | nil => simp [scriptCommands] at hl
  | cons first later =>
    simp only [scriptCommands, List.mem_append] at hl
    rcases hl with h | h
    · by_cases hc : first ≠ [] ∧ ¬ "@echo off".toList <:+: first
      · rw [if_pos hc] at h
        simp only [List.mem_singleton] at h
        subst h
        exact List.mem_cons_self _ _
      · rw [if_neg hc] at h
        simp at h
    · exact List.mem_cons_of_mem _ (List.mem_of_mem_filter h)

theorem map_cstr_scriptCommands (lines : List Str)
    (h : ∀ line ∈ lines, Char.ofNat 0 ∉ line) :
    (scriptCommands lines).map cstr = scriptCommands lines := by
  have : ∀ l ∈ scriptCommands lines, cstr l = id l := fun l hl =>
    cstr_of_not_mem l (h l (scriptCommands_subset lines l hl))
  rw [List.map_congr_left this, List.map_id]

/-- Where the context file opens for writing and the process is restarted in
the directory in which `SaveContext(d)` ran, `LoadContext` returns `d` (for
`d` without a newline) and `Initialize` calls `_chdir` on it. -/
theorem LoadContext_after_SaveContext (env : Env) (s : World) (d launchDir : Str)
    (hwrite : env.canWrite (env.fullPath s.cwd CONTEXT_FILE) = true)
    (hsame : launchDir = s.cwd)
    (hline : '\n' ∉ d) :
    LoadContext env (processStart (SaveContext env d s).fs launchDir) = d
      ∧ (d ≠ [] →
          env.fullPath launchDir SHUTDOWN_FLAG_FILE ≠ env.fullPath launchDir CONTEXT_FILE →
          chdirCalls (Initialize env (processStart (SaveContext env d s).fs launchDir)).trace
              = [cstr d]
            ∧ (Initialize env (processStart (SaveContext env d s).fs launchDir)).cwd
              = (env.chdir launchDir (cstr d)).getD launchDir) := by
  subst hsame
  have hfile := SaveContext_fs env d s hwrite
  constructor
  · rw [LoadContext_of_file env _ d hfile, firstLine_eq_self d hline]
  · intro hd hdistinct
    have h := Initialize_resume env (processStart (SaveContext env d s).fs s.cwd) d hd
      (by
        intro w hcwd hfs
        have hcwd' : w.cwd = s.cwd := hcwd
        apply (LoadContext_of_file env w d _).trans (firstLine_eq_self d hline)
        rw [hcwd']
        rcases hfs with h | h
        · rw [h]; exact hfile
        · rw [h]
          show fsWrite (SaveContext env d s).fs (env.fullPath s.cwd SHUTDOWN_FLAG_FILE)
            "False".toList (env.fullPath s.cwd CONTEXT_FILE) = some d
          unfold fsWrite
          rw [if_neg (fun h => hdistinct h.symm)]
          exact hfile)
    exact ⟨h.1, h.2⟩

/-! ## The claims -/

/-- C1: for a non-empty line, `ParseCommand` logs the line and then does what
the first matching rule of the ordered list of the specification says, and
each route does what the claim says: `help` prints the help text, `cls` logs
and calls `system("cls")`, `exit` shuts down and exits with status 0,
`netstat` and `route` launch the child shell on `netstat -ano` and
`route print`, a line with the prefix `cd ` gets the directory-change
handling (no script line and no child shell is run, also when the line ends
in `.pcml`), exact `cd` logs and prints the current directory, a line longer
than 5 with the suffix `.pcml` is given to `ExecutePCMLFile` as the path, and
every other line (the 5-character line `.pcml` among them) is handed to the
child shell as it is; `pcmi` logs and prints the banner and `register`
reports the success or the failure of the registration. -/
theorem C1_dispatch_follows_first_match (env : Env) (fuel : Nat) (s : World) (line : Str)
    (h : line ≠ []) :
    ParseCommand env fuel line s
        = perform env fuel (firstMatch line) line (Log ("Command: ".toList ++ line) s)
      ∧ ("cd ".toList <+: line → firstMatch line = Route.changeDir)
      ∧ ("cd ".toList <+: line →
          ∃ r, ParseCommand env fuel line s = some r
            ∧ r = changeDirectory env (line.drop 3)
                { Log ("Command: ".toList ++ line) s with stopCommand := false }
            ∧ systemCalls r.trace = systemCalls s.trace
            ∧ popenCalls r.trace = popenCalls s.trace)
      ∧ (∃ r, ParseCommand env fuel "netstat".toList s = some r
            ∧ r = ExecuteCommand env "netstat -ano".toList (Log "Command: netstat".toList s)
            ∧ popenCalls r.trace = popenCalls s.trace ++ ["cmd /c netstat -ano".toList])
      ∧ (∃ r, ParseCommand env fuel "route".toList s = some r
            ∧ r = ExecuteCommand env "route print".toList (Log "Command: route".toList s)
            ∧ popenCalls r.trace = popenCalls s.trace ++ ["cmd /c route print".toList])
      ∧ ParseCommand env fuel "cd".toList s
          = some { s with
              logBuffer := s.logBuffer ++ ["Command: cd".toList, s.cwd]
              trace := s.trace ++ [Event.setColor 14, Event.cout (s.cwd ++ ['\n']),
                Event.setColor 10] }
      ∧ ParseCommand env fuel "help".toList s
          = some { s with
              logBuffer := s.logBuffer ++ ["Command: help".toList]
              trace := s.trace ++ [Event.setColor 14,
                Event.cout "可用命令:\n".toList,
                Event.cout "help - 显示帮助信息\n".toList,
                Event.cout "pcmi - 显示PCMI信息\n".toList,
                Event.cout "exit - 退出PCMI\n".toList,
                Event.cout "netstat - 显示网络状态\n".toList,
                Event.cout "route - 显示路由表\n".toList,
                Event.cout "register - 注册.pcml文件关联\n".toList,
                Event.cout "其他命令和 CMD 相同\n".toList,
                Event.setColor 10] }
      ∧ ParseCommand env fuel "cls".toList s
          = some { s with
              logBuffer := s.logBuffer ++ ["Command: cls".toList, "Clearing screen".toList]
              trace := s.trace ++ [Event.system "cls".toList]
              fs := env.shell "cls".toList s.fs }
      ∧ (∃ r, ParseCommand env fuel "exit".toList s = some r ∧ r.exited = some 0
            ∧ r = { Shutdown env (Log "Command: exit".toList s) with exited := some 0 })
      ∧ (firstMatch line = Route.script →
          ParseCommand env fuel line s
            = ExecutePCMLFile env fuel line (Log ("Command: ".toList ++ line) s))
      ∧ (firstMatch line = Route.shell →
          ∃ r, ParseCommand env fuel line s = some r
            ∧ r = runShell env line
                { Log ("Command: ".toList ++ line) s with stopCommand := false }
            ∧ popenCalls r.trace = popenCalls s.trace ++ [cstr ("cmd /c ".toList ++ line)])
      ∧ firstMatch ".pcml".toList = Route.shell
      ∧ ParseCommand env fuel "pcmi".toList s
          = some { s with
              logBuffer := s.logBuffer ++ ["Command: pcmi".toList,
                ("PCMI ，全称 PowerCommandInterpreter ，由童顺开发，使用C++编写，采用GPL-v3开源\n"
                  ++ "www.tongshunham.top/PCMI/").toList]
              trace := s.trace ++ [Event.setColor 14,
                Event.cout
                  (("PCMI ，全称 PowerCommandInterpreter ，由童顺开发，使用C++编写，采用GPL-v3开源\n"
                    ++ "www.tongshunham.top/PCMI/").toList ++ ['\n']),
                Event.setColor 10] }
      ∧ (∃ r, ParseCommand env fuel "register".toList s = some r
            ∧ r = registerCommand env (Log "Command: register".toList s)
            ∧ ∃ before,
                r.trace = before ++ [Event.setColor 14,
                    Event.cout ("成功注册.pcml文件关联".toList ++ ['\n']), Event.setColor 10]
                ∨ r.trace = before ++ [Event.setColor 12,
                    Event.cout ("错误: 无法注册.pcml文件关联".toList ++ ['\n']),
                    Event.setColor 10]) := by
  have hcore := ParseCommand_eq_perform env fuel s line h
  have hcd : "cd ".toList <+: line → firstMatch line = Route.changeDir := by
    intro hp
    have h1 : line ≠ "help".toList := by rintro rfl; revert hp; decide
    have h2 : line ≠ "cls".toList := by rintro rfl; revert hp; decide
    have h3 : line ≠ "pcmi".toList := by rintro rfl; revert hp; decide
    have h4 : line ≠ "exit".toList := by rintro rfl; revert hp; decide
    have h5 : line ≠ "netstat".toList := by rintro rfl; revert hp; decide
    have h6 : line ≠ "route".toList := by rintro rfl; revert hp; decide
    have h7 : line ≠ "register".toList := by rintro rfl; revert hp; decide
    unfold firstMatch routingRules
    simp only [List.find?, h1, h2, h3, h4, h5, h6, h7, hp, decide_False, decide_True]
  have hshow : ParseCommand env fuel "cd".toList s
      = some (showDirectory (Log "Command: cd".toList s)) := rfl
  have hhelp : ParseCommand env fuel "help".toList s
      = some (helpCommand (Log "Command: help".toList s)) := rfl
  have hcls : ParseCommand env fuel "cls".toList s
      = some (clsCommand env (Log "Command: cls".toList s)) := rfl
  have hcstr : cstr "cls".toList = "cls".toList := by decide
  have hpcmi : ParseCommand env fuel "pcmi".toList s
      = some (pcmiCommand (Log "Command: pcmi".toList s)) := rfl
  refine ⟨hcore, hcd, ?_, ?_, ?_, ?_, ?_, ?_, ⟨_, rfl, rfl, rfl⟩, ?_, ?_, by decide, ?_, ?_⟩
  rotate_left 3
  · rw [hshow]
    simp [showDirectory, Log, SetConsoleColor, coutLine, emit, GetCurrentDirectoryPath]
  · rw [hhelp]
    simp [helpCommand, Log, SetConsoleColor, emit]
  · rw [hcls]
    simp only [clsCommand, callSystem, Log, hcstr]
    simp
  rotate_left 2
  · rw [hpcmi]
    simp only [pcmiCommand, Log, SetConsoleColor, coutLine, emit]
    simp
  · refine ⟨registerCommand env (Log "Command: register".toList s), rfl, rfl, ?_⟩
    unfold registerCommand
    simp only []
    by_cases hreg : (RegisterFileAssociation env (Log "Command: register".toList s)).2 = true
    · rw [if_pos hreg]
      exact ⟨(RegisterFileAssociation env (Log "Command: register".toList s)).1.trace,
        Or.inl (by simp [SetConsoleColor, coutLine, emit])⟩
    · rw [if_neg hreg]
      exact ⟨(RegisterFileAssociation env (Log "Command: register".toList s)).1.trace,
        Or.inr (by simp [SetConsoleColor, coutLine, emit])⟩
  · intro hp
    refine ⟨_, by rw [hcore, hcd hp]; rfl, rfl, ?_, ?_⟩
    · exact (changeDirectory_calls env _ _).1
    · exact (changeDirectory_calls env _ _).2
  · refine ⟨ExecuteCommand env "netstat -ano".toList (Log "Command: netstat".toList s),
      rfl, rfl, ?_⟩
    have e : ExecuteCommand env "netstat -ano".toList (Log "Command: netstat".toList s)
        = runShell env "netstat -ano".toList
            { Log "Command: netstat".toList s with stopCommand := false } := rfl
    rw [e, runShell_popenCalls]
    have c : cstr ("cmd /c ".toList ++ "netstat -ano".toList) = "cmd /c netstat -ano".toList := by
      decide
    rw [c]; rfl
  · refine ⟨ExecuteCommand env "route print".toList (Log "Command: route".toList s),
      rfl, rfl, ?_⟩
    have e : ExecuteCommand env "route print".toList (Log "Command: route".toList s)
        = runShell env "route print".toList
            { Log "Command: route".toList s with stopCommand := false } := rfl
    rw [e, runShell_popenCalls]
    have c : cstr ("cmd /c ".toList ++ "route print".toList) = "cmd /c route print".toList := by
      decide
    rw [c]; rfl
  · intro hr
    rw [hcore, hr]
    rfl
  · intro hr
    have hnp : ¬ "cd ".toList <+: line := by
      intro hp
      rw [hcd hp] at hr
      cases hr
    have e : ExecuteCommand env line (Log ("Command: ".toList ++ line) s)
        = runShell env line { Log ("Command: ".toList ++ line) s with stopCommand := false } := by
      unfold ExecuteCommand
      rw [if_neg (fun hh => hnp ((substr_zero_three_eq_iff line).1 hh))]
    refine ⟨_, by rw [hcore, hr]; rfl, e, ?_⟩
    rw [e, runShell_popenCalls]
    rfl

/-- The hypothesis of C1 holds at the line `cd a.pcml`, which is a directory
change. -/
theorem C1_dispatch_follows_first_match_witness :
    "cd a.pcml".toList ≠ [] ∧
      (ParseCommand plainEnv 0 "cd a.pcml".toList emptyWorld
          = perform plainEnv 0 (firstMatch "cd a.pcml".toList) "cd a.pcml".toList
              (Log ("Command: ".toList ++ "cd a.pcml".toList) emptyWorld)
        ∧ firstMatch "cd a.pcml".toList = Route.changeDir) :=
  ⟨by decide,
    (C1_dispatch_follows_first_match plainEnv 0 emptyWorld "cd a.pcml".toList (by decide)).1,
    by decide⟩

/-- C2: for a script file that opens and that no child changes during the
run, when the interrupt flag is clear at the start and no Ctrl+C arrives,
`ExecutePCMLFile` ends and the calls it makes are exactly those of the first
line if it is non-empty and does not contain `@echo off`, followed by those
of the later lines that are non-empty and do not begin with `@`, in file
order; `system` receives the C string of each of those lines, which is the
line unchanged when the script holds no NUL character; the script
`@echo off`, `echo hi`, `@comment`, `echo bye` runs exactly `echo hi` and
`echo bye` and echoes nothing. -/
theorem C2_script_runs_listed_commands (env : Env) (fuel : Nat) (filePath content : Str)
    (s : World)
    (hopen : s.fs (env.fullPath s.cwd (cstr filePath)) = some content)
    (hkeep : keepsFile env (env.fullPath s.cwd (cstr filePath)))
    (hfuel : (getlines content).length ≤ fuel)
    (hflag : s.stopCommand = false) (hquiet : ∀ k, env.ctrlC k = false) :
    ∃ r, ExecutePCMLFile env fuel filePath s = some r
      ∧ r.trace = s.trace ++ (scriptCommands (getlines content)).flatMap
          (lineEvents (echoMode (getlines content)) filePath)
      ∧ systemCalls r.trace
          = systemCalls s.trace ++ (scriptCommands (getlines content)).map cstr
      ∧ ((∀ line ∈ getlines content, Char.ofNat 0 ∉ line) →
          systemCalls r.trace = systemCalls s.trace ++ scriptCommands (getlines content))
      ∧ (getlines content = ["@echo off".toList, "echo hi".toList, "@comment".toList,
            "echo bye".toList] →
          r.trace
            = s.trace ++ [Event.system "echo hi".toList, Event.system "echo bye".toList]) := by
  obtain ⟨h1, h2, h3⟩ := scriptRun_commands env filePath content s hflag hquiet
  refine ⟨_, ExecutePCMLFile_eq_scriptRun env fuel filePath content s hopen hkeep hfuel,
    h1, h2, ?_, h3⟩
  intro hnul
  rw [h2, map_cstr_scriptCommands _ hnul]

/-- The hypotheses of C2 hold for the script `demo.pcml` (`@echo off`,
`echo hi`, `@comment`, `echo bye`) run without interrupts: it runs `echo hi`
and `echo bye`. -/
theorem C2_script_runs_listed_commands_witness :
    (demoWorld.fs (plainEnv.fullPath demoWorld.cwd (cstr "demo.pcml".toList))
        = some "@echo off\necho hi\n@comment\necho bye\n".toList
      ∧ keepsFile plainEnv (plainEnv.fullPath demoWorld.cwd (cstr "demo.pcml".toList))
      ∧ (getlines "@echo off\necho hi\n@comment\necho bye\n".toList).length ≤ 4
      ∧ demoWorld.stopCommand = false
      ∧ ∀ k, plainEnv.ctrlC k = false)
    ∧ ∃ r, ExecutePCMLFile plainEnv 4 "demo.pcml".toList demoWorld = some r
        ∧ systemCalls r.trace = ["echo hi".toList, "echo bye".toList] :=
  ⟨⟨by decide, fun _ _ => rfl, by decide, rfl, fun _ => rfl⟩,
    (C2_script_runs_listed_commands plainEnv 4 "demo.pcml".toList
      "@echo off\necho hi\n@comment\necho bye\n".toList demoWorld (by decide)
      (fun _ _ => rfl) (by decide) rfl (fun _ => rfl)).imp
      (fun _ hr => ⟨hr.1, (hr.2.2.2.1 (by decide)).trans (by decide)⟩)⟩

/-- C3: for every script path and every content of the file at the time it
is opened, whatever the interrupt flag, Ctrl+C and the children do, a run of
`ExecutePCMLFile` that ends has made the calls of lines it has run and no
other: if the first line contains `@echo off` they are `system` calls only
(nothing is echoed), and otherwise every `system` call on a line comes
directly after the echo `<path>> <line>` of that line and there is no other
echo.  When no child changes the script the run ends (given enough fuel) and
the lines it has run are lines of the file, in file order. -/
theorem C3_echo_follows_first_line (env : Env) (fuel : Nat) (filePath content : Str)
    (s : World)
    (hopen : s.fs (env.fullPath s.cwd (cstr filePath)) = some content) :
    (∀ r, ExecutePCMLFile env fuel filePath s = some r →
      ∃ cmds : List Str,
        ("@echo off".toList <:+: (getlines content).headD [] →
          r.trace = s.trace ++ cmds.map (fun line => Event.system (cstr line))) ∧
        (¬ "@echo off".toList <:+: (getlines content).headD [] →
          r.trace = s.trace ++ cmds.flatMap (fun line =>
              [Event.setColor 14, Event.cout (filePath ++ "> ".toList ++ line ++ ['\n']),
                Event.setColor 10, Event.system (cstr line)])))
      ∧ (keepsFile env (env.fullPath s.cwd (cstr filePath)) →
          (getlines content).length ≤ fuel →
          ∃ r, ExecutePCMLFile env fuel filePath s = some r ∧
            ∃ cmds : List Str, cmds.Sublist (getlines content) ∧
              ("@echo off".toList <:+: (getlines content).headD [] →
                r.trace = s.trace ++ cmds.map (fun line => Event.system (cstr line))) ∧
              (¬ "@echo off".toList <:+: (getlines content).headD [] →
                r.trace = s.trace ++ cmds.flatMap (fun line =>
                    [Event.setColor 14,
                      Event.cout (filePath ++ "> ".toList ++ line ++ ['\n']),
                      Event.setColor 10, Event.system (cstr line)]))) := by
  constructor
  · intro r hr
    obtain ⟨cmds, hc⟩ := ExecutePCMLFile_trace_pairs env fuel filePath content s r hopen hr
    refine ⟨cmds, fun hoff => ?_, fun hoff => ?_⟩
    · simp only [hoff, not_true_eq_false, decide_False] at hc
      rw [hc, flatMap_lineEvents_false]
    · simp only [hoff, not_false_eq_true, decide_True] at hc
      rw [hc, flatMap_lineEvents_true]
  · intro hkeep hfuel
    exact ⟨_, ExecutePCMLFile_eq_scriptRun env fuel filePath content s hopen hkeep hfuel,
      scriptRun_echo env filePath content s⟩

/-- The hypothesis of C3 holds for the script `run.pcml` (`echo 1`, `echo 2`,
`echo 3`), whose first line does not contain `@echo off`: every command is
echoed directly before it is run. -/
theorem C3_echo_follows_first_line_witness :
    scriptWorld.fs (plainEnv.fullPath scriptWorld.cwd (cstr "run.pcml".toList))
        = some "echo 1\necho 2\necho 3\n".toList
    ∧ ∃ r, ExecutePCMLFile plainEnv 3 "run.pcml".toList scriptWorld = some r ∧
        ∃ cmds : List Str, cmds.Sublist (getlines "echo 1\necho 2\necho 3\n".toList) ∧
          ("@echo off".toList <:+: (getlines "echo 1\necho 2\necho 3\n".toList).headD [] →
            r.trace = scriptWorld.trace
              ++ cmds.map (fun line => Event.system (cstr line))) ∧
          (¬ "@echo off".toList <:+: (getlines "echo 1\necho 2\necho 3\n".toList).headD [] →
            r.trace = scriptWorld.trace ++ cmds.flatMap (fun line =>
                [Event.setColor 14,
                  Event.cout ("run.pcml".toList ++ "> ".toList ++ line ++ ['\n']),
                  Event.setColor 10, Event.system (cstr line)])) :=
  ⟨by decide,
    (C3_echo_follows_first_line plainEnv 3 "run.pcml".toList "echo 1\necho 2\necho 3\n".toList
      scriptWorld (by decide)).2 (fun _ _ => rfl) (by decide)⟩

/-- C4: on a script that no child changes, when the line at position `k` is
run (it is a line the runner executes, and the loop reaches it: it is the
first line, or the flag was clear at the start and no Ctrl+C arrived during
an earlier line) and Ctrl+C arrives during it, `ExecutePCMLFile` ends and
has made the calls of the lines up to position `k` only: no later line is
executed or echoed and nothing else is printed; the only addition to the log
is the entry of the handler; and when a line after `k` exists the flag is
clear when the script stops. -/
theorem C4_interrupt_stops_after_current_line (env : Env) (fuel : Nat)
    (filePath content : Str) (s : World) (k : Nat) (line : Str)
    (hopen : s.fs (env.fullPath s.cwd (cstr filePath)) = some content)
    (hkeep : keepsFile env (env.fullPath s.cwd (cstr filePath)))
    (hfuel : (getlines content).length ≤ fuel)
    (hk : (getlines content)[k]? = some line)
    (hrun : (k = 0 → line ≠ [] ∧ ¬ "@echo off".toList <:+: line)
      ∧ (0 < k → runnable line = true))
    (hreach : k = 0 ∨ (s.stopCommand = false ∧ ∀ j, j < k → env.ctrlC j = false))
    (hint : env.ctrlC k = true) :
    ∃ r, ExecutePCMLFile env fuel filePath s = some r
      ∧ r.trace = s.trace ++ (scriptCommands ((getlines content).take (k + 1))).flatMap
          (lineEvents (echoMode (getlines content)) filePath)
      ∧ r.logBuffer = s.logBuffer ++ ["Command interrupted by Ctrl+C".toList]
      ∧ (k + 1 < (getlines content).length → r.stopCommand = false) :=
  ⟨_, ExecutePCMLFile_eq_scriptRun env fuel filePath content s hopen hkeep hfuel,
    scriptRun_interrupt env filePath content s k line hk hrun hreach hint⟩

/-- The hypotheses of C4 hold for the script `run.pcml` (`echo 1`, `echo 2`,
`echo 3`) when Ctrl+C arrives during the line at position 1: `echo 1` and
`echo 2` are run, `echo 3` is not, and the flag is clear at the end. -/
theorem C4_interrupt_stops_after_current_line_witness :
    (scriptWorld.fs (interruptEnv.fullPath scriptWorld.cwd (cstr "run.pcml".toList))
        = some "echo 1\necho 2\necho 3\n".toList
      ∧ keepsFile interruptEnv (interruptEnv.fullPath scriptWorld.cwd (cstr "run.pcml".toList))
      ∧ (getlines "echo 1\necho 2\necho 3\n".toList).length ≤ 3
      ∧ (getlines "echo 1\necho 2\necho 3\n".toList)[1]? = some "echo 2".toList
      ∧ ((1 = 0 → "echo 2".toList ≠ [] ∧ ¬ "@echo off".toList <:+: "echo 2".toList)
          ∧ (0 < 1 → runnable "echo 2".toList = true))
      ∧ (1 = 0 ∨ (scriptWorld.stopCommand = false ∧ ∀ j, j < 1 → interruptEnv.ctrlC j = false))
      ∧ interruptEnv.ctrlC 1 = true)
    ∧ ∃ r, ExecutePCMLFile interruptEnv 3 "run.pcml".toList scriptWorld = some r
        ∧ systemCalls r.trace = ["echo 1".toList, "echo 2".toList]
        ∧ r.logBuffer = scriptWorld.logBuffer ++ ["Command interrupted by Ctrl+C".toList]
        ∧ r.stopCommand = false :=
  have hyp : (1 = 0 → "echo 2".toList ≠ [] ∧ ¬ "@echo off".toList <:+: "echo 2".toList)
      ∧ (0 < 1 → runnable "echo 2".toList = true) :=
    ⟨fun h => absurd h (by decide), fun _ => by decide⟩
  have hreach : 1 = 0 ∨
      (scriptWorld.stopCommand = false ∧ ∀ j, j < 1 → interruptEnv.ctrlC j = false) :=
    Or.inr ⟨rfl, fun j hj => by
      have : j = 0 := by omega
      subst this
      rfl⟩
  ⟨⟨by decide, fun _ _ => rfl, by decide, by decide, hyp, hreach, rfl⟩,
    (C4_interrupt_stops_after_current_line interruptEnv 3 "run.pcml".toList
      "echo 1\necho 2\necho 3\n".toList scriptWorld 1 "echo 2".toList (by decide)
      (fun _ _ => rfl) (by decide) (by decide) hyp hreach rfl).imp
      (fun _ h => ⟨h.1, (congrArg systemCalls h.2.1).trans (by decide), h.2.2.1,
        h.2.2.2 (by decide)⟩)⟩

/-- C5 (evaluation at the failing input): `ParseCommand` does not reset the
interrupt flag.  With the flag left set, the script `run.pcml` (lines
`echo 1`, `echo 2`, `echo 3`) stops after its first line, while with the
flag clear it runs all three lines; and after `help` the flag is as it was. -/
theorem C5_stale_flag_stops_script :
    (ParseCommand plainEnv 3 "run.pcml".toList staleWorld).map
        (fun r => systemCalls r.trace) = some ["echo 1".toList]
      ∧ (ParseCommand plainEnv 3 "run.pcml".toList scriptWorld).map
        (fun r => systemCalls r.trace)
          = some ["echo 1".toList, "echo 2".toList, "echo 3".toList]
      ∧ (ParseCommand plainEnv 3 "help".toList staleWorld).map (fun r => r.stopCommand)
          = some true := by
  decide

/-- C2 (as stated, refuted): the script `nul.pcml` has the one line `echo a`,
NUL, `z`; `system` receives `echo a`, not the line. -/
theorem C2_line_with_nul_is_cut :
    (ExecutePCMLFile plainEnv 1 "nul.pcml".toList nulWorld).map
        (fun r => systemCalls r.trace) = some ["echo a".toList]
      ∧ getlines ("echo a".toList ++ [Char.ofNat 0] ++ "z\n".toList)
          = ["echo a".toList ++ [Char.ofNat 0] ++ "z".toList]
      ∧ "echo a".toList ≠ "echo a".toList ++ [Char.ofNat 0] ++ "z".toList := by
  decide

/-- C6 (as stated, refuted): for `cd a<NUL>b` where no directory change
succeeds, the path `_chdir` attempts is `a`, while the message names the
whole string `a<NUL>b`. -/
theorem C6_message_names_whole_path :
    chdirCalls (ExecuteCommand noDirEnv ("cd a".toList ++ [Char.ofNat 0] ++ "b".toList)
        emptyWorld).trace = ["a".toList]
      ∧ (ExecuteCommand noDirEnv ("cd a".toList ++ [Char.ofNat 0] ++ "b".toList)
          emptyWorld).logBuffer
          = ["错误: 无法切换到目录 \"a".toList ++ [Char.ofNat 0] ++ "b\"".toList] := by
  decide

/-- C6 (amended): when the directory change of `cd <arg>` fails, the current
directory is unchanged, the only calls are the failed `_chdir` and the print
of the message `错误: 无法切换到目录 "<target>"` in colour 12 (no
subprocess), and that message is the one entry appended to the log, where
`<target>` is the whole normalised path; the path `_chdir` attempted is
`<target>` up to its first NUL character, that is `<target>` itself when it
holds none; for `cd nonexistent-dir` the message names `nonexistent-dir`. -/
theorem C6_failed_cd_reports_target (env : Env) (arg target : Str) (s : World)
    (htarget : cdTarget s.cwd (stripQuotes (replaceSlashes arg)) = some target)
    (hfail : env.chdir s.cwd (cstr target) = none) :
    (ExecuteCommand env ("cd ".toList ++ arg) s).cwd = s.cwd
      ∧ (ExecuteCommand env ("cd ".toList ++ arg) s).logBuffer
          = s.logBuffer ++ ["错误: 无法切换到目录 \"".toList ++ target ++ "\"".toList]
      ∧ (ExecuteCommand env ("cd ".toList ++ arg) s).trace
          = s.trace ++ [Event.chdir (cstr target), Event.setColor 12,
              Event.cout ("错误: 无法切换到目录 \"".toList ++ target ++ "\"".toList ++ ['\n']),
              Event.setColor 10]
      ∧ popenCalls (ExecuteCommand env ("cd ".toList ++ arg) s).trace = popenCalls s.trace
      ∧ (Char.ofNat 0 ∉ target →
          chdirCalls (ExecuteCommand env ("cd ".toList ++ arg) s).trace
            = chdirCalls s.trace ++ [target])
      ∧ (arg = "nonexistent-dir".toList →
          (ExecuteCommand env ("cd ".toList ++ arg) s).logBuffer
            = s.logBuffer ++ ["错误: 无法切换到目录 \"nonexistent-dir\"".toList]) := by
  rw [ExecuteCommand_cd]
  unfold changeDirectory
  simp only [htarget]
  have hfail' : env.chdir (emit [Event.chdir (cstr target)]
      { s with stopCommand := false }).cwd (cstr target) = none := hfail
  rw [hfail']
  refine ⟨rfl, rfl, ?_, ?_, ?_, ?_⟩
  · simp [SetConsoleColor, coutLine, emit, Log]
  · simp [SetConsoleColor, coutLine, emit, Log, popenCalls_append, popenCalls]
  · intro hnul
    rw [cstr_of_not_mem target hnul]
    simp [SetConsoleColor, coutLine, emit, Log, chdirCalls_append, chdirCalls]
  · intro harg
    subst harg
    have ht : cdTarget s.cwd (stripQuotes (replaceSlashes "nonexistent-dir".toList))
        = some "nonexistent-dir".toList := by
      have e : stripQuotes (replaceSlashes "nonexistent-dir".toList)
          = "nonexistent-dir".toList := by decide
      rw [e]
      rfl
    rw [ht] at htarget
    have := Option.some.inj htarget
    subst this
    rfl

/-- The hypotheses of C6 (amended) hold for `cd nonexistent-dir` where no
directory change succeeds. -/
theorem C6_failed_cd_reports_target_witness :
    (cdTarget emptyWorld.cwd (stripQuotes (replaceSlashes "nonexistent-dir".toList))
        = some "nonexistent-dir".toList
      ∧ noDirEnv.chdir emptyWorld.cwd (cstr "nonexistent-dir".toList) = none)
    ∧ (ExecuteCommand noDirEnv ("cd ".toList ++ "nonexistent-dir".toList) emptyWorld).logBuffer
        = emptyWorld.logBuffer ++ ["错误: 无法切换到目录 \"nonexistent-dir\"".toList] :=
  ⟨⟨by decide, rfl⟩,
    (C6_failed_cd_reports_target noDirEnv "nonexistent-dir".toList "nonexistent-dir".toList
      emptyWorld (by decide) rfl).2.2.2.2.2 rfl⟩

/-- C8 (as stated, refuted): on the empty line `ParseCommand` logs two
entries, `Command: [empty]` and `Executing: `, and launches the subprocess
`cmd /c `. -/
theorem C8_empty_line_launches_shell :
    (ParseCommand plainEnv 0 [] emptyWorld).map (fun r => r.logBuffer)
        = some ["Command: [empty]".toList, "Executing: ".toList]
      ∧ (ParseCommand plainEnv 0 [] emptyWorld).map (fun r => r.trace)
        = some [Event.popen "cmd /c ".toList, Event.pclose] := by
  decide

/-- C8 (amended): on the empty line `ParseCommand` appends the log entry
`Command: [empty]` and then treats the line as any unmatched line: it
resets the interrupt flag, logs `Executing: ` and launches the child shell
`cmd /c `; it attempts no directory change and the current directory is
unchanged. -/
theorem C8_empty_line_goes_to_shell (env : Env) (fuel : Nat) (s : World) :
    ∃ r, ParseCommand env fuel [] s = some r
      ∧ r = runShell env [] { Log "Command: [empty]".toList s with stopCommand := false }
      ∧ r.cwd = s.cwd
      ∧ chdirCalls r.trace = chdirCalls s.trace
      ∧ popenCalls r.trace = popenCalls s.trace ++ ["cmd /c ".toList]
      ∧ ∃ more, r.logBuffer
          = s.logBuffer ++ "Command: [empty]".toList :: "Executing: ".toList :: more := by
  refine ⟨runShell env [] { Log "Command: [empty]".toList s with stopCommand := false },
    rfl, rfl, ?_⟩
  have hc : cstr ("cmd /c ".toList ++ []) = "cmd /c ".toList := by decide
  refine ⟨?_, ?_, ?_, ?_⟩
  rotate_left 2
  · rw [runShell_popenCalls, hc]; rfl
  all_goals
    unfold runShell
    simp only [hc]
    cases hp : env.popen "cmd /c ".toList with
    | none =>
      first
        | exact rfl
        | exact ⟨["错误: 无法执行命令".toList], by
            simp [SetConsoleColor, coutLine, emit, Log]⟩
        | simp [SetConsoleColor, coutLine, emit, Log, chdirCalls_append, chdirCalls]
    | some items =>
      simp only []
      obtain ⟨h1, h2, h3, more, h4⟩ := pipe_foldl items
        { emit [Event.popen "cmd /c ".toList]
            (Log ("Executing: ".toList ++ [])
              { Log "Command: [empty]".toList s with stopCommand := false }) with
          fs := env.shell "cmd /c ".toList
            (emit [Event.popen "cmd /c ".toList]
              (Log ("Executing: ".toList ++ [])
                { Log "Command: [empty]".toList s with stopCommand := false })).fs }
      first
        | exact h1
        | (refine ⟨more, ?_⟩
           simp only [emit] at h4 ⊢
           rw [h4]; simp [Log])
        | (simp only [emit, chdirCalls_append] at h2 ⊢
           rw [h2]; simp [Log, chdirCalls])

/-- C9 (evaluation at the failing input): a session started in `C:\pcmi` runs
`cd C:\work` and then `dir`.  The last `SaveContext` is called with
`C:\work` and writes `Context.pcmi` in `C:\work`; a process restarted in
`C:\pcmi` loads `C:\pcmi` from the `Context.pcmi` there, and `Initialize`
calls `_chdir` on `C:\pcmi` and stays in it: the directory saved last,
`C:\work`, is not returned. -/
theorem C9_restart_loads_launch_directory :
    ((mainLoopBody plainEnv 0 "cd C:\\work".toList emptyWorld).bind
        (mainLoopBody plainEnv 0 "dir".toList)).map (fun s => s.cwd)
      = some "C:\\work".toList
    ∧ ((mainLoopBody plainEnv 0 "cd C:\\work".toList emptyWorld).bind
        (mainLoopBody plainEnv 0 "dir".toList)).map
          (fun s => s.fs "C:\\work\\Context.pcmi".toList)
      = some (some "C:\\work".toList)
    ∧ ((mainLoopBody plainEnv 0 "cd C:\\work".toList emptyWorld).bind
        (mainLoopBody plainEnv 0 "dir".toList)).map
          (fun s => LoadContext plainEnv (processStart s.fs "C:\\pcmi".toList))
      = some "C:\\pcmi".toList
    ∧ ((mainLoopBody plainEnv 0 "cd C:\\work".toList emptyWorld).bind
        (mainLoopBody plainEnv 0 "dir".toList)).map
          (fun s =>
            chdirCalls (Initialize plainEnv (processStart s.fs "C:\\pcmi".toList)).trace)
      = some ["C:\\pcmi".toList]
    ∧ ((mainLoopBody plainEnv 0 "cd C:\\work".toList emptyWorld).bind
        (mainLoopBody plainEnv 0 "dir".toList)).map
          (fun s => (Initialize plainEnv (processStart s.fs "C:\\pcmi".toList)).cwd)
      = some "C:\\pcmi".toList := by
  decide

/-- C10 (evaluation at the failing input): for the argument that is the
single character `"` the path the directory change works on is empty: the
one character is removed, `cd "` hands the empty path to `_chdir`, and the
message names the empty path. -/
theorem C10_single_quote_is_removed :
    stripQuotes (replaceSlashes "\"".toList) = []
      ∧ chdirCalls (ExecuteCommand noDirEnv "cd \"".toList emptyWorld).trace = [[]]
      ∧ (ExecuteCommand noDirEnv "cd \"".toList emptyWorld).logBuffer
          = ["错误: 无法切换到目录 \"\"".toList] := by
  decide

end PCMI
